import Mathlib

/-!
# Oracles randomizer: option strings, seeds, key ordering, mutables and logic terms

A shallow embedding of parts of `randomizer/main.go`, `rom/mutables.go`,
`rom/ages_treasures.go` and `logic/labrynna.go`, followed by theorems about them.

Go strings that hold text are embedded as Lean strings (sequences of Unicode code
points); a `for _, c := range s` loop over a Go string visits its runes, which are
the characters of the Lean string.  Byte sequences that are not valid UTF-8 have no
counterpart here.  Go pointers that may be nil are embedded as `Option`.
-/

namespace Randomizer

/-! ## Data model (`randomizer/main.go`) -/

/-- The constant `gameNil` of the `iota` block. -/
def gameNil : Nat := 0

/-- The constant `gameAges` of the `iota` block. -/
def gameAges : Nat := 1

/-- The constant `gameSeasons` of the `iota` block. -/
def gameSeasons : Nat := 2

/-- The struct `globalOptions`.  The field `instances` (back pointers to the
per-game options) is read by none of the embedded functions and is left out. -/
structure globalOptions where
  race : Bool
  seed : String
  includes : List String
deriving DecidableEq, Repr

/-- The type `plan`; only its field `source` is read by the embedded code. -/
structure plan where
  source : String
deriving DecidableEq, Repr

/-- The struct `randomizerOptions`; `gopts` and `plan` are pointers. -/
structure randomizerOptions where
  gopts : Option globalOptions
  game : Nat
  treewarp : Bool
  hard : Bool
  dungeons : Bool
  portals : Bool
  plan : Option plan
deriving DecidableEq, Repr

/-! ## `roptsFromString` -/

/-- The call `strings.Split(s, sep)` for a one-character separator: the pieces
of `s` between consecutive separators.  The result is never empty. -/
def stringsSplit (sep : Char) : List Char → List (List Char)
  | [] => [[]]
  | c :: cs =>
    if c = sep then [] :: stringsSplit sep cs
    else
      match stringsSplit sep cs with
      | [] => [[c]]
      | p :: ps => (c :: p) :: ps

/-- The loop `for _, c := range a[1]` of `roptsFromString`: every rune sets its
option; the first rune outside `d`, `h`, `p`, `t` aborts with that rune. -/
def parseFlags : List Char → randomizerOptions → Except Char randomizerOptions
  | [], ropts => .ok ropts
  | c :: cs, ropts =>
    if c = 'd' then parseFlags cs { ropts with dungeons := true }
    else if c = 'h' then parseFlags cs { ropts with hard := true }
    else if c = 'p' then parseFlags cs { ropts with portals := true }
    else if c = 't' then parseFlags cs { ropts with treewarp := true }
    else .error c

/-- The function `roptsFromString`.  The Go result pair `(*randomizerOptions, error)`
is a pair of options: `none` is `nil`, and an error is given by its message. -/
def roptsFromString (s : String) (gopts : Option globalOptions) :
    Option randomizerOptions × Option String :=
  let a := stringsSplit '+' s.data
  if a.length = 0 ∨ a.length > 2 then
    (none, some ("bad option string: " ++ s))
  else
    let ropts : randomizerOptions :=
      { gopts := gopts, game := gameNil, treewarp := false, hard := false,
        dungeons := false, portals := false, plan := none }
    let a0 := String.mk (a.getD 0 [])
    let withGame : Option randomizerOptions :=
      if a0 = "s" ∨ a0 = "seasons" then some { ropts with game := gameSeasons }
      else if a0 = "a" ∨ a0 = "ages" then some { ropts with game := gameAges }
      else none
    match withGame with
    | none => (none, some ("unknown game: " ++ a0))
    | some ropts =>
      if a.length = 2 then
        match parseFlags (a.getD 1 []) ropts with
        | .ok ropts => (some ropts, none)
        | .error c => (none, some ("unknown flag: " ++ toString c.toNat))
      else (some ropts, none)

/-- The letters that `roptsFromString` accepts in the flag part. -/
def flagLetters : List Char := ['d', 'h', 'p', 't']

/-- The names that `roptsFromString` accepts as the game part. -/
def gameWords : List String := ["s", "seasons", "a", "ages"]

/-- The acceptance condition in the words of the specification: the string, split
on `+`, has one or two parts, the first part is a game word, and every character
of the second part (when there is one) is a flag letter. -/
def optionStringAccepted (s : String) : Prop :=
  let parts := stringsSplit '+' s.data
  (parts.length = 1 ∨ parts.length = 2) ∧
  String.mk (parts.getD 0 []) ∈ gameWords ∧
  ∀ f, parts[1]? = some f → ∀ c ∈ f, c ∈ flagLetters

/-! ## Hexadecimal formatting (`fmt.Sprintf` with `%08x` and `%03x`) -/

/-- The lowercase digit of a value below 16, read from the digit table of `fmt`. -/
def hexDigit (d : Nat) : Char := "0123456789abcdef".data.getD d '0'

/-- The hexadecimal digits of `n`, most significant first, without leading zeros
(one digit `0` for zero).  The first argument bounds the number of digits. -/
def fmtHexDigits : Nat → Nat → List Char
  | 0, _ => []
  | fuel + 1, n =>
    if n < 16 then [hexDigit n]
    else fmtHexDigits fuel (n / 16) ++ [hexDigit (n % 16)]

/-- The verbs `%08x` and `%03x` of `fmt.Sprintf` applied to an unsigned value of at
most 64 bits: its lowercase hexadecimal digits, padded on the left with zeros to at
least `width` characters. -/
def sprintfHex (width n : Nat) : String :=
  String.mk (List.replicate (width - (fmtHexDigits 16 n).length) '0' ++ fmtHexDigits 16 n)

/-- The rendering of `n` with exactly `w` hexadecimal digits, most significant
first: the statement-side counterpart of `sprintfHex`. -/
def hexFixed : Nat → Nat → List Char
  | 0, _ => []
  | w + 1, n => hexFixed w (n / 16) ++ [hexDigit (n % 16)]

/-! ## `optString` -/

/-- The letters that `optString` appends after the separator, in the order of the
source: `t`, `h`, `d`, `p`, one for each option that is set. -/
def flagString (treewarp hard dungeons portals : Bool) : String :=
  (if treewarp then "t" else "") ++ (if hard then "h" else "") ++
  (if dungeons then "d" else "") ++ (if portals then "p" else "")

/-- The function `optString`.  `sha1Sum` stands for
`sha1.Sum([]byte(source))` of the standard library: the digest bytes of a string.
The result is `none` when `ropts.gopts` is dereferenced while nil. -/
def optString (sha1Sum : String → List Nat) (seed : Nat) (ropts : randomizerOptions)
    (flagSep : String) : Option String :=
  let s := ""
  match ropts.plan with
  | some pl =>
    let sum := sha1Sum pl.source
    let s := s ++ ("plan-" ++ sprintfHex 3 (((sum.getD 0 0 <<< 8) + sum.getD 1 0) >>> 4))
    let s := if ropts.treewarp then s ++ (flagSep ++ "t") else s
    some s
  | none =>
    match ropts.gopts with
    | none => none
    | some gopts =>
      let s :=
        if gopts.race then s ++ ("race-" ++ sprintfHex 3 (seed >>> 20))
        else s ++ sprintfHex 8 seed
      let s :=
        if ropts.treewarp || ropts.hard || ropts.dungeons || ropts.portals then
          let s := s ++ flagSep
          let s := if ropts.treewarp then s ++ "t" else s
          let s := if ropts.hard then s ++ "h" else s
          let s := if ropts.dungeons then s ++ "d" else s
          let s := if ropts.portals then s ++ "p" else s
          s
        else s
      some s

/-! ## `setRandomSeed` -/

/-- The call `strings.Replace(s, old, new, 1)` for a non-empty `old`: the first
occurrence of `old` in `s`, if any, is replaced by `new`. -/
def stringsReplaceFirst (old new : List Char) : List Char → List Char
  | [] => []
  | c :: cs =>
    if old.isPrefixOf (c :: cs) then new ++ (c :: cs).drop old.length
    else c :: stringsReplaceFirst old new cs

/-- The value of a character as a digit of base 16 in `strconv.ParseUint`:
`0`-`9`, and `a`-`f` in either case; any other character is a syntax error. -/
def hexDigitValue (c : Char) : Option Nat :=
  if '0' ≤ c ∧ c ≤ '9' then some (c.toNat - '0'.toNat)
  else if 'a' ≤ c ∧ c ≤ 'f' then some (c.toNat - 'a'.toNat + 10)
  else if 'A' ≤ c ∧ c ≤ 'F' then some (c.toNat - 'A'.toNat + 10)
  else none

/-- The digit loop of `strconv.ParseUint(s, 16, 32)`: `none` for a syntax error
or a value above `2^32 - 1`. -/
def parseUintLoop : List Char → Nat → Option Nat
  | [], n => some n
  | c :: cs, n =>
    match hexDigitValue c with
    | none => none
    | some d =>
      if n ≥ (2 ^ 64 - 1) / 16 + 1 then none
      else
        let n1 := n * 16 + d
        if n1 > 2 ^ 32 - 1 then none else parseUintLoop cs n1

/-- The call `strconv.ParseUint(s, 16, 32)`: `none` when it returns an error. -/
def parseUint (s : List Char) : Option Nat :=
  if s = [] then none else parseUintLoop s 0

/-- What `setRandomSeed` returns and does: the seed and the error of the result
pair, and the argument of the call `rand.Seed`, if that call is reached. -/
structure seedResult where
  seed : Nat
  err : Option String
  randSeed : Option Int
deriving DecidableEq, Repr

/-- The function `setRandomSeed`; `now` is the value of `time.Now().UnixNano()`. -/
def setRandomSeed (now : Int) (hexString : String) : seedResult :=
  let seed : Nat := (now % 2 ^ 32).toNat
  if hexString ≠ "" then
    match parseUint (stringsReplaceFirst "0x".data [] hexString.data) with
    | none =>
      { seed := 0, err := some ("invalid seed \"" ++ hexString ++ "\""), randSeed := none }
    | some v =>
      let seed := v % 2 ^ 32
      { seed := seed, err := none, randSeed := some (seed : Int) }
  else
    { seed := seed, err := none, randSeed := some (seed : Int) }

/-! ## `orderedKeys`

A Go string is a sequence of bytes, and `sort.Strings` orders strings byte-wise.
For `orderedKeys` a string is therefore embedded as the list of its bytes. -/

/-- The comparison `a < b` of two Go strings: byte-wise lexicographic order, a
proper initial segment coming first. -/
def bytesLess : List Nat → List Nat → Bool
  | _, [] => false
  | [], _ :: _ => true
  | x :: xs, y :: ys =>
    if x < y then true else if y < x then false else bytesLess xs ys

/-- The call `sort.Strings(a)`: the elements of `a` in increasing order.  The
order is total and equal strings are identical, so the sorted list does not depend
on the sorting algorithm; insertion sort is used here. -/
def sortStrings (a : List (List Nat)) : List (List Nat) :=
  a.insertionSort (fun x y => bytesLess y x = false)

/-- The loop `for i, key := range v.MapKeys() { a[i] = key.String() }`, started at
index `i`. -/
def fillKeys : List (List Nat) → Nat → List (List Nat) → List (List Nat)
  | [], _, a => a
  | key :: rest, i, a => fillKeys rest (i + 1) (a.set i key)

/-- The function `orderedKeys`.  The map is given by `mapKeys`, the list in which
`v.MapKeys()` enumerates its keys: each key of the map once, in an order the
language does not fix.  `v.Len()` is the length of that list. -/
def orderedKeys (mapKeys : List (List Nat)) : List (List Nat) :=
  let a := List.replicate mapKeys.length []
  let a := fillKeys mapKeys 0 a
  sortStrings a

end Randomizer

namespace Rom

/-! ## Mutables (`rom/mutables.go`) and treasures (`rom/ages_treasures.go`) -/

/-- The type `Addr`: a bank and an offset within the bank. -/
structure Addr where
  Bank : Nat
  Offset : Nat
deriving DecidableEq, Repr

/-- The struct `MutableRange`: a length of mutable bytes at the given addresses. -/
structure MutableRange where
  Addrs : List Addr
  Old : List Nat
  New : List Nat
deriving DecidableEq, Repr

/-- The function `MutableByte`. -/
def MutableByte (addr : Addr) (old new : Nat) : MutableRange :=
  { Addrs := [addr], Old := [old], New := [new] }

/-- The type `Treasure`, with its fields in the order of the composite literal in
`agesTreasure`. -/
structure Treasure where
  id : Nat
  subID : Nat
  addr : Addr
  mode : Nat
  param : Nat
  text : Nat
  sprite : Nat
deriving DecidableEq, Repr

/-- The function `agesTreasure`. -/
def agesTreasure (id subID offset mode param text sprite : Nat) : Treasure :=
  { id := id, subID := subID, addr := { Bank := 0x16, Offset := offset }, mode := mode,
    param := param, text := text, sprite := sprite }

/-- The block `equip items` of the table `agesTreasures`, in the order of the
source; the blocks after it are not embedded. -/
def agesTreasures : List (String × Treasure) :=
  [ ("bombs, 10", agesTreasure 0x03 0x00 0x54ce 0x38 0x10 0x4d 0x05),
    ("iron shield", agesTreasure 0x01 0x01 0x54c2 0x0a 0x02 0x20 0x14),
    ("cane", agesTreasure 0x04 0x00 0x5342 0x38 0x00 0x73 0x17),
    ("sword 1", agesTreasure 0x05 0x00 0x54e6 0x38 0x01 0x1c 0x10),
    ("sword 2", agesTreasure 0x05 0x00 0x54e6 0x38 0x01 0x1c 0x10),
    ("boomerang", agesTreasure 0x06 0x00 0x5502 0x0a 0x01 0x22 0x1c),
    ("switch hook 1", agesTreasure 0x0a 0x00 0x550e 0x38 0x01 0x30 0x1f),
    ("switch hook 2", agesTreasure 0x0a 0x00 0x550e 0x38 0x01 0x30 0x1f),
    ("strange flute", agesTreasure 0x0e 0x00 0x552e 0x0a 0x0c 0x3b 0x23),
    ("ricky's flute", agesTreasure 0x0e 0x00 0x552a 0x0a 0x0b 0x38 0x23),
    ("dimitri's flute", agesTreasure 0x0e 0x01 0x552e 0x0a 0x0c 0x39 0x23),
    ("moosh's flute", agesTreasure 0x0e 0x02 0x5532 0x0a 0x0d 0x3a 0x23),
    ("seed shooter", agesTreasure 0x0f 0x00 0x536e 0x38 0x01 0x2e 0x21),
    ("shovel", agesTreasure 0x15 0x00 0x553e 0x0a 0x00 0x25 0x1b),
    ("bracelet 1", agesTreasure 0x16 0x00 0x554a 0x0a 0x01 0x26 0x19),
    ("bracelet 2", agesTreasure 0x16 0x00 0x554a 0x0a 0x01 0x26 0x19),
    ("feather", agesTreasure 0x17 0x00 0x555a 0x0a 0x01 0x27 0x16),
    ("satchel 1", agesTreasure 0x19 0x02 0x556e 0x29 0x00 0x2d 0x20),
    ("satchel 2", agesTreasure 0x19 0x02 0x556e 0x29 0x00 0x2d 0x20) ]

/-- A value of the interface `Mutable`: a pointer to a `MutableRange` or to a
`Treasure`, given here by the object pointed to. -/
inductive Mutable where
  | range (mr : MutableRange)
  | treasure (t : Treasure)
deriving DecidableEq, Repr

/-- The part of the package state that `SetAnimal` works on.  The maps of mutables
hold pointers: `heap` gives the object at an address, and `varMutables` gives the
address stored under a name (`none` for a name that is not in the map). -/
structure mutableState where
  heap : Nat → Option Mutable
  varMutables : String → Option Nat

/-- The function `SetAnimal`.  The type assertion `.(*MutableRange)` panics when
the entry `animal region` is missing or is no `*MutableRange`; the result is then
`none`.  Otherwise the field `New` of the object is overwritten through the
pointer with the single byte `byte(companion + 0x0a)`. -/
def SetAnimal (companion : Int) (st : mutableState) : Option mutableState :=
  match st.varMutables "animal region" with
  | none => none
  | some p =>
    match st.heap p with
    | some (Mutable.range mr) =>
      some
        { st with
          heap := fun q =>
            if q = p then
              some (Mutable.range { mr with New := [((companion + 0x0a) % 256).toNat] })
            else st.heap q }
    | _ => none

end Rom

namespace Logic

/-! ## Logic nodes and the table `labrynnaNodes` (`logic/labrynna.go`)

The table is written with the functions `And`, `Or`, `AndSlot`, `OrSlot`, `Root`,
`Hard`, `HardAnd` and `HardOr` of the package `logic`.  Their declarations and the
evaluator are not among the source files at hand and are modelled from the
specification. -/

/-- Modelled from the spec: the `kind` of a node, which is missing from the source
files at hand ("one of {AND, OR, ROOT}"). -/
inductive NodeType where
  | AndNode
  | OrNode
  | RootNode
deriving DecidableEq, Repr

/-- Modelled from the spec: the type `Node`, which is missing from the source files
at hand.  A term of a node is "either a reference to another Node by name, or a
nested sub-expression (itself AND/OR composed)": `ref` is a reference by name, and
`mk` is a node with its kind, its `isSlot` flag, its `hardOnly` flag and its terms
in order. -/
inductive Node where
  | ref (name : String)
  | mk (type : NodeType) (isSlot : Bool) (isHard : Bool) (parents : List Node)
deriving Repr

/-- A string argument of `And`, `Or`, ... is a reference by name. -/
instance : Coe String Node := ⟨Node.ref⟩

/-- Modelled from the spec: the function `And`, which is missing from the source
files at hand: a node of kind AND that is no slot. -/
def And (parents : List Node) : Node := Node.mk NodeType.AndNode false false parents

/-- Modelled from the spec: the function `Or`, which is missing from the source
files at hand: a node of kind OR that is no slot. -/
def Or (parents : List Node) : Node := Node.mk NodeType.OrNode false false parents

/-- Modelled from the spec: the function `AndSlot`, which is missing from the source
files at hand: a node of kind AND that is a slot. -/
def AndSlot (parents : List Node) : Node := Node.mk NodeType.AndNode true false parents

/-- Modelled from the spec: the function `OrSlot`, which is missing from the source
files at hand: a node of kind OR that is a slot. -/
def OrSlot (parents : List Node) : Node := Node.mk NodeType.OrNode true false parents

/-- Modelled from the spec: the function `Root`, which is missing from the source
files at hand: a node of kind ROOT. -/
def Root (parents : List Node) : Node := Node.mk NodeType.RootNode false false parents

/-- Modelled from the spec: the function `HardAnd`, which is missing from the source
files at hand: a node of kind AND that counts under hard logic only. -/
def HardAnd (parents : List Node) : Node := Node.mk NodeType.AndNode false true parents

/-- Modelled from the spec: the function `HardOr`, which is missing from the source
files at hand: a node of kind OR that counts under hard logic only. -/
def HardOr (parents : List Node) : Node := Node.mk NodeType.OrNode false true parents

/-- Modelled from the spec: the function `Hard`, which is missing from the source
files at hand: a term that counts under hard logic only.  The table uses `Hard()`
as an option that is open under hard logic, so it is of kind AND. -/
def Hard (parents : List Node) : Node := Node.mk NodeType.AndNode false true parents

/-- Modelled from the spec: whether a term is excluded, which is missing from the
source files at hand: a `hardOnly` term "under normal logic is treated as absent". -/
def excluded (hard : Bool) : Node → Bool
  | Node.ref _ => false
  | Node.mk _ _ isHard _ => isHard && !hard

mutual
/-- Modelled from the spec: the satisfaction of a term, which is missing from the
source files at hand.  A reference is satisfied when the node of that name is
reached; "AND parent: reached iff every non-excluded term is reached"; "OR parent:
reached iff at least one non-excluded term is reached"; "ROOT nodes are always
reachable". -/
def satisfied (hard : Bool) (reached : String → Bool) : Node → Bool
  | Node.ref name => reached name
  | Node.mk NodeType.AndNode _ _ parents => satisfiedAll hard reached parents
  | Node.mk NodeType.OrNode _ _ parents => satisfiedAny hard reached parents
  | Node.mk NodeType.RootNode _ _ _ => true
/-- Modelled from the spec: every term that is not excluded is satisfied. -/
def satisfiedAll (hard : Bool) (reached : String → Bool) : List Node → Bool
  | [] => true
  | p :: ps => (excluded hard p || satisfied hard reached p) && satisfiedAll hard reached ps
/-- Modelled from the spec: some term that is not excluded is satisfied. -/
def satisfiedAny (hard : Bool) (reached : String → Bool) : List Node → Bool
  | [] => false
  | p :: ps => (!excluded hard p && satisfied hard reached p) || satisfiedAny hard reached ps
end

/-- The table `labrynnaNodes`, as the list of its entries in the order of the
source. -/
def labrynnaNodes : List (String × Node) :=
  [ ("start", And []),
    ("starting chest", AndSlot ["start"]),
    ("nayru's house", AndSlot ["start"]),
    ("lynna city", Or ["break bush", "flute", "echoes"]),
    ("lynna village", Or ["lynna city", "echoes"]),
    ("black tower worker", AndSlot ["lynna village"]),
    ("maku tree", OrSlot ["rescue nayru", And ["lynna village", "shovel", "kill normal"]]),
    ("south lynna tree", AndSlot ["lynna city", "sword", "seed item"]),
    ("lynna city chest", OrSlot ["ember seeds", "currents"]),
    ("shore present",
      Or [
        "flute",
        "ricky's gloves",
        And ["break bush", "feather"],
        And ["lynna city", "bracelet"],
        And ["currents", Or ["feather", "flippers", "raft"]]]),
    ("south shore dirt", AndSlot ["shore present", "shovel"]),
    ("tingle",
      And [
        "feather",
        Or ["sword", "boomerang"],
        Or [
          "currents",
          And [
            Or ["break bush", "shore present"],
            Or ["any seed shooter", "ricky's gloves", "ricky's flute"]]]]),
    ("tingle's gift", AndSlot ["tingle"]),
    ("tingle's upgrade",
      AndSlot [
        "tingle",
        Or [
          And [
            "ember seeds",
            Or [
              And ["scent seeds", Or ["pegasus seeds", "gale seeds", "mystery seeds"]],
              And ["pegasus seeds", Or ["gale seeds", "mystery seeds"]],
              And ["gale seeds", "mystery seeds"]]],
          And [
            "scent seeds",
            Or [
              And ["pegasus seeds", Or ["gale seeds", "mystery seeds"]],
              And ["gale seeds", "mystery seeds"]]],
          And ["pegasus seeds", "gale seeds", "mystery seeds"]]]),
    ("raft", And ["lynna village", "cheval rope", "island chart"]),
    ("shop, 150 rupees", AndSlot ["lynna city"]),
    ("ambi's palace tree", AndSlot ["lynna village", "sword", "seed item"]),
    ("ambi's palace chest",
      AndSlot [
        "lynna village",
        Or [
          HardAnd ["satchel", "scent seeds", "pegasus seeds"],
          And ["break bush", "mermaid suit"]]]),
    ("rescue nayru", AndSlot ["ambi's palace chest", "mystery seeds", "switch hook"]),
    ("mayor plen's house", AndSlot ["long hook"]),
    ("maku seed",
      And [
        "d1 essence",
        "d2 essence",
        "d3 essence",
        "d4 essence",
        "d5 essence",
        "d6 essence",
        "d7 essence",
        "d8 essence"]),
    ("yoll graveyard", And ["ember seeds"]),
    ("yoll moosh", Or ["moosh's flute", And ["yoll graveyard", "kill ghini"]]),
    ("cheval's grave", Or ["yoll moosh", "bomb jump 3"]),
    ("cheval's test", AndSlot ["cheval's grave", "bracelet", Or ["feather", "flippers"]]),
    ("cheval's invention", AndSlot ["cheval's grave", "flippers"]),
    ("grave under tree", AndSlot ["yoll graveyard"]),
    ("syrup", And ["yoll graveyard", Or ["flippers", "bomb jump 2"]]),
    ("enter d1", And ["yoll graveyard", "graveyard key"]),
    ("fairies' woods chest",
      AndSlot [
        "lynna city",
        Or [
          And [
            Or ["bracelet", "flippers", "dimitri's flute"],
            Or ["feather", "ricky's flute", "moosh's flute", "ages"]],
          And ["bracelet", "currents"]]]),
    ("deku forest",
      And ["lynna city", Or ["bracelet", And [Or ["flippers", "dimitri's flute"], "ages"]]]),
    ("deku forest cave east", AndSlot ["deku forest", Or ["feather", "bracelet", "ages"]]),
    ("deku forest cave west",
      AndSlot ["deku forest", "bracelet", Or ["feather", "ember seeds", "ages"]]),
    ("deku forest tree",
      AndSlot ["deku forest", Or ["ember seeds", "ages"], "sword", "seed item"]),
    ("deku forest soldier", AndSlot ["deku forest", "mystery seeds"]),
    ("enter d2", And ["deku forest", Or ["bombs", "currents"]]),
    ("crescent past",
      Or [
        "raft",
        And ["lynna city", "mermaid suit"],
        And ["crescent present west", "echoes", "ages"]]),
    ("tokay crystal cave", AndSlot ["crescent past", Or ["shovel", "break crystal"]]),
    ("tokay bomb cave", AndSlot ["crescent past", "bracelet", "bombs"]),
    ("wild tokay game", AndSlot ["crescent past", "bombs", "bracelet"]),
    ("crescent present east", And ["crescent past", "harp"]),
    ("crescent island tree",
      AndSlot ["crescent present east", "scent seedling", "sword", "seed item"]),
    ("crescent present west",
      Or [
        "dimitri's flute",
        And ["lynna city", "mermaid suit"],
        And ["crescent past", "harp"]]),
    ("enter d3", And ["crescent present west"]),
    ("hidden tokay cave", AndSlot ["lynna city", "mermaid suit"]),
    ("crescent seafloor cave", AndSlot ["lynna city", "mermaid suit"]),
    ("tokay pot cave", AndSlot ["crescent past", "long hook"]),
    ("ricky nuun", Root []),
    ("dimitri nuun", Root []),
    ("moosh nuun", Root ["start"]),
    ("nuun",
      And [
        "lynna city",
        Or [
          "currents",
          And [Or ["bracelet", "flippers", "dimitri's flute"], "ember shooter"]]]),
    ("nuun highlands cave",
      AndSlot [
        "nuun",
        Or [
          "dimitri's flute",
          And [Or ["ricky nuun", "moosh nuun"], Or ["flute", "currents"]]]]),
    ("symmetry present",
      And ["nuun", Or ["ages", "flute", And ["currents", Or ["ricky nuun", "moosh nuun"]]]]),
    ("symmetry city tree", AndSlot ["sword", "seed item", "symmetry present"]),
    ("symmetry past", And ["symmetry present", "echoes"]),
    ("symmetry city brother", AndSlot ["symmetry past"]),
    ("tokkey's composition", AndSlot ["symmetry past", "flippers"]),
    ("restoration wall",
      Or [
        And ["lynna city", "ages", Or ["bracelet", "flippers", "dimitri's flute"]],
        And ["symmetry past", "currents", "bracelet", "flippers"]]),
    ("patch",
      And [
        Or ["sword", "shield", "boomerang", "switch hook", HardOr ["scent seeds", "cane"]],
        "restoration wall"]),
    ("talus peaks chest",
      OrSlot [
        "restoration wall",
        And [Or ["bracelet", "flippers", "dimitri's flute"], "ages"]]),
    ("enter d4", And ["symmetry present", "tuni nut", "patch"]),
    ("goron elder", AndSlot ["bomb flower", "switch hook", Or ["feather", "ages"]]),
    ("ridge west past", Or ["goron elder", And ["ridge west present", "bracelet", "echoes"]]),
    ("ridge west present",
      Or [
        "ridge upper present",
        And ["switch hook", "currents", Or ["feather", "ages"]],
        And ["currents", Or ["ridge west past", "ridge base past"]]]),
    ("ridge west cave", AndSlot ["ridge west present"]),
    ("rolling ridge west tree", AndSlot ["sword", "seed item", "ridge west past"]),
    ("under moblin keep", AndSlot ["ridge west present", "feather", "flippers"]),
    ("defeat great moblin", AndSlot ["ridge west present", "pegasus satchel", "bracelet"]),
    ("ridge upper present", Or ["ridge base present", And ["defeat great moblin", "feather"]]),
    ("enter d5", And ["crown key", "ridge upper present"]),
    ("ridge base present",
      Or [
        "ridge upper present",
        And ["currents", Or ["ridge base past east", "ridge base past west"]]]),
    ("enter d6 present", And ["mermaid key", "ridge base present"]),
    ("pool in d6 entrance", And ["ridge base present", "mermaid suit"]),
    ("goron dance present", AndSlot ["ridge base present"]),
    ("goron dance past", AndSlot ["ridge base past", "goron letter"]),
    ("ridge mid past",
      Or [
        "ridge base past west",
        And ["ridge upper present", "ages"],
        And ["ridge base past east", "brother emblem", "feather"]]),
    ("ridge mid present",
      Or [
        And ["ridge mid past", "currents"],
        And ["ridge base present", "brother emblem", Or ["switch hook", "jump 3"]]]),
    ("target carts", And ["ridge mid past", "switch hook", "currents"]),
    ("target carts 1", AndSlot ["target carts"]),
    ("target carts 2", AndSlot ["target carts"]),
    ("shooting gallery", AndSlot ["target carts", "sword"]),
    ("rolling ridge east tree",
      AndSlot ["sword", "seed item", Or ["target carts", And ["ridge mid present", "ages"]]]),
    ("ridge base past east",
      Or [
        "target carts",
        And [Or ["echoes", "lynna city"], Or ["feather", "ages"], "mermaid suit"],
        And ["ridge mid past", "feather", "brother emblem"],
        And ["ridge mid present", "ages"],
        And ["ridge base present", "echoes"]]),
    ("ridge base past west", And ["ridge base past east", Or ["flippers", Hard ["jump 3"]]]),
    ("ridge base past", AndSlot ["ridge base past west", "bombs"]),
    ("enter d6 past", And ["old mermaid key", "ridge base past west"]),
    ("ridge diamonds past", AndSlot ["ridge base past west", "switch hook"]),
    ("bomb goron head",
      AndSlot [
        "bombs",
        Or [And ["ridge base past west", "switch hook"], And ["ridge upper present", "ages"]]]),
    ("big bang game", AndSlot ["goronade", "ridge mid present"]),
    ("ridge NE cave present", AndSlot ["ridge mid present"]),
    ("trade rock brisket", AndSlot ["rock brisket", "ridge base present"]),
    ("trade goron vase", AndSlot ["goron vase", "ridge base past east"]),
    ("trade lava juice", AndSlot ["lava juice", "ridge mid past"]),
    ("goron's hiding place", AndSlot ["ridge west present", "bombs"]),
    ("ridge base chest", AndSlot ["ridge west present"]),
    ("goron diamond cave", AndSlot ["ridge mid present", Or ["switch hook", "jump 3"]]),
    ("ridge bush cave", AndSlot ["ridge mid past", "switch hook"]),
    ("zora village", And ["mermaid suit", "ages", "switch hook"]),
    ("zora village tree", AndSlot ["zora village", "sword", "seed item"]),
    ("zora village present", AndSlot ["zora village"]),
    ("zora palace chest", AndSlot ["zora village"]),
    ("zora NW cave", AndSlot ["zora village", "bombs", "power glove"]),
    ("fairies' coast chest", AndSlot ["zora village"]),
    ("king zora", AndSlot ["zora village", "syrup"]),
    ("library present", AndSlot ["zora village", "library key"]),
    ("library past", AndSlot ["zora village", "library key", "book of seals"]),
    ("clean seas", And ["zora village", "fairy powder"]),
    ("zora seas chest", AndSlot ["clean seas"]),
    ("enter d7", And ["king zora", "clean seas"]),
    ("zora cave past", AndSlot ["mermaid suit", "ages", "long hook"]),
    ("zora's reward", AndSlot ["d7 essence"]),
    ("piratian captain", AndSlot ["lynna city", "mermaid suit", "zora scale"]),
    ("sea of storms past", AndSlot ["lynna city", "mermaid suit", "zora scale"]),
    ("sea of storms present", AndSlot ["lynna city", "mermaid suit", "zora scale", "currents"]),
    ("enter d8",
      And [
        "crescent past",
        "tokay eyeball",
        "kill normal",
        "break pot",
        "bombs",
        Or ["cane", Hard []],
        "mermaid suit",
        "feather"]),
    ("sea of no return", AndSlot ["enter d8", "power glove"]),
    ("old zora",
      AndSlot [
        "yoll graveyard",
        "graveyard key",
        "bracelet",
        "crescent present east",
        "symmetry past",
        Or ["switch hook", "mermaid suit"]]) ]

/-! ## Evaluation of the table to its fixpoint -/

/-- Modelled from the spec: the `isSlot` flag of the table entry of a name, which is
missing from the source files at hand ("true if this node also denotes a placement
location"); a name without an entry is no slot. -/
def isSlot (name : String) : Bool :=
  match labrynnaNodes.lookup name with
  | some (Node.mk _ slot _ _) => slot
  | _ => false

/-- Modelled from the spec: one pass of the evaluator, which is missing from the
source files at hand.  `marked` holds the names marked reached.  Every table node
that is not marked and whose terms are satisfied under the marks is marked as well
("if a parent transitions from unreached to reached, mark it"); no mark is ever
taken back. -/
def propagate (hard : Bool) (marked : List String) : List String :=
  marked ++
    (labrynnaNodes.filter fun e =>
      !marked.contains e.1 && satisfied hard (fun s => marked.contains s) e.2).map Prod.fst

/-- Modelled from the spec: the marks after `k` passes of the evaluator, which is
missing from the source files at hand, started from the held-set ("externally-marked
reached leaf nodes").  A node is reached in the least fixpoint when it is marked
after some number of passes. -/
def reachedAfter (hard : Bool) (held : List String) : Nat → List String
  | 0 => held
  | k + 1 => propagate hard (reachedAfter hard held k)

/-- The names of the group `zora village / zora seas` of the table, in the order of
the source. -/
def zoraGroup : List String :=
  ["zora village", "zora village tree", "zora village present", "zora palace chest",
   "zora NW cave", "fairies' coast chest", "king zora", "library present", "library past",
   "clean seas", "zora seas chest", "enter d7", "zora cave past", "zora's reward"]

end Logic

/-! # Theorems -/

namespace Randomizer

/-! ## Lemmas on `stringsSplit` and `parseFlags` -/

theorem stringsSplit_ne_nil (sep : Char) (l : List Char) : stringsSplit sep l ≠ [] := by
  cases l with
  | nil => simp [stringsSplit]
  | cons c cs =>
    unfold stringsSplit
    split
    · simp
    · split <;> simp

theorem stringsSplit_length (sep : Char) (l : List Char) :
    (stringsSplit sep l).length = l.count sep + 1 := by
  induction l with
  | nil => simp [stringsSplit]
  | cons c cs ih =>
    unfold stringsSplit
    by_cases h : c = sep
    · subst h
      simp [ih]
    · have hne : (c == sep) = false := by simpa using h
      rw [if_neg h, List.count_cons, hne]
      cases hs : stringsSplit sep cs with
      | nil => exact absurd hs (stringsSplit_ne_nil sep cs)
      | cons p ps =>
        rw [hs] at ih
        simpa using ih

theorem stringsSplit_intercalate (sep : Char) (l : List Char) :
    List.intercalate [sep] (stringsSplit sep l) = l := by
  induction l with
  | nil => simp [stringsSplit, List.intercalate]
  | cons c cs ih =>
    unfold stringsSplit
    by_cases h : c = sep
    · subst h
      rw [if_pos rfl]
      cases hs : stringsSplit c cs with
      | nil => exact absurd hs (stringsSplit_ne_nil c cs)
      | cons p ps =>
        rw [hs] at ih
        rw [← ih]
        simp [List.intercalate, List.intersperse]
    · rw [if_neg h]
      cases hs : stringsSplit sep cs with
      | nil => exact absurd hs (stringsSplit_ne_nil sep cs)
      | cons p ps =>
        rw [hs] at ih
        rw [← ih]
        cases ps <;> simp [List.intercalate, List.intersperse]

theorem stringsSplit_no_sep (sep : Char) (l : List Char) :
    ∀ p ∈ stringsSplit sep l, sep ∉ p := by
  induction l with
  | nil => simp [stringsSplit]
  | cons c cs ih =>
    unfold stringsSplit
    by_cases h : c = sep
    · subst h
      rw [if_pos rfl]
      intro p hp
      rcases List.mem_cons.1 hp with rfl | hp
      · simp
      · exact ih p hp
    · rw [if_neg h]
      cases hs : stringsSplit sep cs with
      | nil => exact absurd hs (stringsSplit_ne_nil sep cs)
      | cons p ps =>
        rw [hs] at ih
        intro q hq
        rcases List.mem_cons.1 hq with rfl | hq
        · have := ih p (List.mem_cons_self _ _)
          simp only [List.mem_cons, not_or]
          exact ⟨fun e => h e.symm, this⟩
        · exact ih q (List.mem_cons_of_mem _ hq)

theorem parseFlags_ok (cs : List Char) (ropts : randomizerOptions)
    (h : ∀ c ∈ cs, c ∈ flagLetters) :
    parseFlags cs ropts = .ok
      { ropts with
        dungeons := ropts.dungeons || decide ('d' ∈ cs)
        hard := ropts.hard || decide ('h' ∈ cs)
        portals := ropts.portals || decide ('p' ∈ cs)
        treewarp := ropts.treewarp || decide ('t' ∈ cs) } := by
  induction cs generalizing ropts with
  | nil => simp [parseFlags]
  | cons c cs ih =>
    have hc : c ∈ flagLetters := h c (List.mem_cons_self _ _)
    have hcs : ∀ x ∈ cs, x ∈ flagLetters := fun x hx => h x (List.mem_cons_of_mem _ hx)
    simp only [flagLetters, List.mem_cons, List.mem_singleton, List.not_mem_nil, or_false] at hc
    rcases hc with rfl | rfl | rfl | rfl <;>
      simp [parseFlags, ih _ hcs, Bool.or_assoc]

theorem parseFlags_error (cs : List Char) (ropts : randomizerOptions)
    (h : ¬ ∀ c ∈ cs, c ∈ flagLetters) :
    ∃ c, parseFlags cs ropts = .error c := by
  induction cs generalizing ropts with
  | nil => simp at h
  | cons c cs ih =>
    unfold parseFlags
    by_cases hc : c ∈ flagLetters
    · have hcs : ¬ ∀ x ∈ cs, x ∈ flagLetters := by
        intro hall
        apply h
        intro x hx
        rcases List.mem_cons.1 hx with rfl | hx
        · exact hc
        · exact hall x hx
      simp only [flagLetters, List.mem_cons, List.mem_singleton, List.not_mem_nil, or_false] at hc
      split
      · exact ih _ hcs
      · split
        · exact ih _ hcs
        · split
          · exact ih _ hcs
          · split
            · exact ih _ hcs
            · rcases hc with rfl | rfl | rfl | rfl <;> simp_all
    · simp only [flagLetters, List.mem_cons, List.mem_singleton, List.not_mem_nil, or_false,
        not_or] at hc
      rw [if_neg hc.1, if_neg hc.2.1, if_neg hc.2.2.1, if_neg hc.2.2.2]
      exact ⟨c, rfl⟩

/-! ## `roptsFromString`: accepted and rejected strings -/

theorem roptsFromString_accepted (s : String) (gopts : Option globalOptions)
    (h : optionStringAccepted s) :
    roptsFromString s gopts =
      (some
        { gopts := gopts
          game :=
            if String.mk ((stringsSplit '+' s.data).getD 0 []) = "s" ∨
                String.mk ((stringsSplit '+' s.data).getD 0 []) = "seasons"
            then gameSeasons else gameAges
          treewarp := decide ('t' ∈ (stringsSplit '+' s.data).getD 1 [])
          hard := decide ('h' ∈ (stringsSplit '+' s.data).getD 1 [])
          dungeons := decide ('d' ∈ (stringsSplit '+' s.data).getD 1 [])
          portals := decide ('p' ∈ (stringsSplit '+' s.data).getD 1 [])
          plan := none }, none) := by
  unfold optionStringAccepted at h
  unfold roptsFromString
  rcases hp : stringsSplit '+' s.data with _ | ⟨a0, _ | ⟨a1, _ | ⟨a2, rest⟩⟩⟩
  · exact absurd hp (stringsSplit_ne_nil _ _)
  · simp only [hp, gameWords, List.mem_cons, List.mem_singleton, List.not_mem_nil,
      or_false] at h
    obtain ⟨-, hg, -⟩ := h
    simp only [List.getD_cons_zero] at hg
    rcases hg with hg | hg | hg | hg <;> simp [hg]
  · simp only [hp, gameWords, List.mem_cons, List.mem_singleton, List.not_mem_nil,
      or_false] at h
    obtain ⟨-, hg, hf⟩ := h
    simp only [List.getD_cons_zero] at hg
    have hf1 : ∀ c ∈ a1, c ∈ flagLetters := hf a1 (by simp)
    rcases hg with hg | hg | hg | hg <;> simp [hg, parseFlags_ok _ _ hf1]
  · simp [hp] at h

theorem roptsFromString_rejected (s : String) (gopts : Option globalOptions)
    (h : ¬ optionStringAccepted s) :
    ∃ msg, roptsFromString s gopts = (none, some msg) := by
  unfold optionStringAccepted at h
  unfold roptsFromString
  rcases hp : stringsSplit '+' s.data with _ | ⟨a0, _ | ⟨a1, _ | ⟨a2, rest⟩⟩⟩
  · exact absurd hp (stringsSplit_ne_nil _ _)
  · simp only [hp, gameWords, List.mem_cons, List.mem_singleton, List.not_mem_nil,
      or_false] at h
    simp only [List.getD_cons_zero] at h
    by_cases h1 : String.mk a0 = "s" ∨ String.mk a0 = "seasons"
    · exact absurd ⟨by simp, by tauto, by simp⟩ h
    · by_cases h2 : String.mk a0 = "a" ∨ String.mk a0 = "ages"
      · exact absurd ⟨by simp, by tauto, by simp⟩ h
      · simp [h1, h2]
  · simp only [hp, gameWords, List.mem_cons, List.mem_singleton, List.not_mem_nil,
      or_false] at h
    simp only [List.getD_cons_zero] at h
    by_cases hf : ∀ c ∈ a1, c ∈ flagLetters
    · have hg : ¬ (String.mk a0 = "s" ∨ String.mk a0 = "seasons" ∨ String.mk a0 = "a" ∨
          String.mk a0 = "ages") := by
        intro hg
        apply h
        refine ⟨by simp, hg, ?_⟩
        intro f hf1
        simp at hf1
        subst hf1
        exact hf
      have h1 : ¬ (String.mk a0 = "s" ∨ String.mk a0 = "seasons") := by tauto
      have h2 : ¬ (String.mk a0 = "a" ∨ String.mk a0 = "ages") := by tauto
      simp [h1, h2]
    · obtain ⟨c, hc⟩ := parseFlags_error a1
        { gopts := gopts, game := gameSeasons, treewarp := false, hard := false,
          dungeons := false, portals := false, plan := none } hf
      obtain ⟨c2, hc2⟩ := parseFlags_error a1
        { gopts := gopts, game := gameAges, treewarp := false, hard := false,
          dungeons := false, portals := false, plan := none } hf
      by_cases h1 : String.mk a0 = "s" ∨ String.mk a0 = "seasons"
      · simp [h1, hc]
      · by_cases h2 : String.mk a0 = "a" ∨ String.mk a0 = "ages"
        · simp [h1, h2, hc2]
        · simp [h1, h2]
  · simp

/-- C1: `roptsFromString` returns without error exactly for the strings that, split
on `+`, have one or two parts, a game word as first part and only the letters
`d`, `h`, `p`, `t` in the second part; every other string, among them the empty
string (error `unknown game`) and every string with two or more `+` (error
`bad option string`), gives a nil options value together with an error.  The parts
are those of the input: joined by `+` they give the input back, none of them
contains `+`, and there is one more part than there are `+`. -/
theorem roptsFromString_error_iff (s : String) (gopts : Option globalOptions) :
    ((roptsFromString s gopts).2 = none ↔ optionStringAccepted s) ∧
    (optionStringAccepted s ↔ ∃ ropts, roptsFromString s gopts = (some ropts, none)) ∧
    (¬ optionStringAccepted s ↔ ∃ msg, roptsFromString s gopts = (none, some msg)) ∧
    ¬ optionStringAccepted "" ∧
    roptsFromString "" gopts = (none, some "unknown game: ") ∧
    (2 ≤ s.data.count '+' → ¬ optionStringAccepted s) ∧
    (2 ≤ s.data.count '+' →
      roptsFromString s gopts = (none, some ("bad option string: " ++ s))) ∧
    List.intercalate ['+'] (stringsSplit '+' s.data) = s.data ∧
    (∀ p ∈ stringsSplit '+' s.data, '+' ∉ p) ∧
    (stringsSplit '+' s.data).length = s.data.count '+' + 1 := by
  have hacc := roptsFromString_accepted s gopts
  have hrej := roptsFromString_rejected s gopts
  refine ⟨?_, ?_, ?_, ?_, rfl, ?_, ?_, stringsSplit_intercalate _ _,
    stringsSplit_no_sep _ _, stringsSplit_length _ _⟩
  · constructor
    · intro h
      by_contra hn
      obtain ⟨msg, hm⟩ := hrej hn
      rw [hm] at h
      simp at h
    · intro h
      rw [hacc h]
  · constructor
    · intro h
      exact ⟨_, hacc h⟩
    · rintro ⟨ropts, hr⟩
      by_contra hn
      obtain ⟨msg, hm⟩ := hrej hn
      rw [hm] at hr
      simp at hr
  · constructor
    · exact hrej
    · rintro ⟨msg, hm⟩ h
      rw [hacc h] at hm
      simp at hm
  · unfold optionStringAccepted
    simp [stringsSplit, gameWords]
  · intro h2 h
    unfold optionStringAccepted at h
    have hl := stringsSplit_length '+' s.data
    rcases h.1 with h1 | h1 <;> omega
  · intro h2
    have hl := stringsSplit_length '+' s.data
    have hlong : (stringsSplit '+' s.data).length = 0 ∨ (stringsSplit '+' s.data).length > 2 :=
      Or.inr (by omega)
    unfold roptsFromString
    simp only [hlong, if_true]

/-- C1, at the string `a+ht`: it is accepted, so no error is returned. -/
theorem roptsFromString_error_iff_witness :
    (roptsFromString "a+ht" none).2 = none :=
  (roptsFromString_error_iff "a+ht" none).1.2 (by
    unfold optionStringAccepted
    simp [stringsSplit, gameWords, flagLetters])

/-- C2: when `roptsFromString` accepts a string, the game of the result is seasons
exactly for the first parts `s` and `seasons` and ages exactly for `a` and `ages`;
`dungeons`, `hard`, `portals`, `treewarp` are true exactly when `d`, `h`, `p`, `t`
occur in the flag part (none occurs when there is no flag part); `gopts` is the
pointer passed in and `plan` is nil.  Two accepted strings with the same first part
whose flag parts hold the same letters, in any order and number, give the same
options.  The strings `s+hdp` and `a+ht` give seasons with hard, dungeons, portals
and ages with hard, treewarp. -/
theorem roptsFromString_fields (s : String) (gopts : Option globalOptions)
    (ropts : randomizerOptions) (h : roptsFromString s gopts = (some ropts, none)) :
    (ropts.game = gameSeasons ↔
      String.mk ((stringsSplit '+' s.data).getD 0 []) = "s" ∨
      String.mk ((stringsSplit '+' s.data).getD 0 []) = "seasons") ∧
    (ropts.game = gameAges ↔
      String.mk ((stringsSplit '+' s.data).getD 0 []) = "a" ∨
      String.mk ((stringsSplit '+' s.data).getD 0 []) = "ages") ∧
    (ropts.dungeons = true ↔ 'd' ∈ (stringsSplit '+' s.data).getD 1 []) ∧
    (ropts.hard = true ↔ 'h' ∈ (stringsSplit '+' s.data).getD 1 []) ∧
    (ropts.portals = true ↔ 'p' ∈ (stringsSplit '+' s.data).getD 1 []) ∧
    (ropts.treewarp = true ↔ 't' ∈ (stringsSplit '+' s.data).getD 1 []) ∧
    ropts.gopts = gopts ∧ ropts.plan = none ∧
    (∀ (s2 : String) (ropts2 : randomizerOptions),
      roptsFromString s2 gopts = (some ropts2, none) →
      (stringsSplit '+' s2.data).getD 0 [] = (stringsSplit '+' s.data).getD 0 [] →
      (∀ c, c ∈ (stringsSplit '+' s2.data).getD 1 [] ↔
        c ∈ (stringsSplit '+' s.data).getD 1 []) →
      ropts2 = ropts) ∧
    roptsFromString "s+hdp" gopts =
      (some { gopts := gopts, game := gameSeasons, treewarp := false, hard := true,
              dungeons := true, portals := true, plan := none }, none) ∧
    roptsFromString "a+ht" gopts =
      (some { gopts := gopts, game := gameAges, treewarp := true, hard := true,
              dungeons := false, portals := false, plan := none }, none) := by
  have hacc : ∀ (t : String) (r : randomizerOptions),
      roptsFromString t gopts = (some r, none) → optionStringAccepted t := by
    intro t r ht
    by_contra hn
    obtain ⟨msg, hm⟩ := roptsFromString_rejected t gopts hn
    rw [hm] at ht
    simp at ht
  have ha := hacc s ropts h
  have he := roptsFromString_accepted s gopts ha
  rw [h] at he
  have hr : ropts = _ := Option.some.inj (congrArg Prod.fst he)
  have hw : String.mk ((stringsSplit '+' s.data).getD 0 []) ∈ gameWords := ha.2.1
  simp only [gameWords, List.mem_cons, List.mem_singleton, List.not_mem_nil, or_false] at hw
  refine ⟨?_, ?_, ?_, ?_, ?_, ?_, ?_, ?_, ?_, ?_, ?_⟩
  · rw [hr]
    generalize String.mk ((stringsSplit '+' s.data).getD 0 []) = w at hw ⊢
    rcases hw with hw | hw | hw | hw <;> subst hw <;> dsimp only <;> decide
  · rw [hr]
    generalize String.mk ((stringsSplit '+' s.data).getD 0 []) = w at hw ⊢
    rcases hw with hw | hw | hw | hw <;> subst hw <;> dsimp only <;> decide
  · rw [hr]; simp
  · rw [hr]; simp
  · rw [hr]; simp
  · rw [hr]; simp
  · rw [hr]
  · rw [hr]
  · intro s2 ropts2 h2 h0 h1
    have ha2 := hacc s2 ropts2 h2
    have he2 := roptsFromString_accepted s2 gopts ha2
    rw [h2] at he2
    have hr2 : ropts2 = _ := Option.some.inj (congrArg Prod.fst he2)
    rw [hr2, hr, h0]
    simp only [h1]
  · rfl
  · rfl

/-- C2, at the string `s+dp`, which is accepted. -/
theorem roptsFromString_fields_witness :
    roptsFromString "s+dp" none =
      (some { gopts := none, game := gameSeasons, treewarp := false, hard := false,
              dungeons := true, portals := true, plan := none }, none) ∧
    ('d' ∈ (stringsSplit '+' "s+dp".data).getD 1 [] ∧
      't' ∉ (stringsSplit '+' "s+dp".data).getD 1 []) :=
  ⟨by decide,
    ⟨(roptsFromString_fields "s+dp" none
        { gopts := none, game := gameSeasons, treewarp := false, hard := false,
          dungeons := true, portals := true, plan := none } (by decide)).2.2.1.1 rfl,
     fun ht => Bool.false_ne_true
      ((roptsFromString_fields "s+dp" none
        { gopts := none, game := gameSeasons, treewarp := false, hard := false,
          dungeons := true, portals := true, plan := none } (by decide)).2.2.2.2.2.1.2 ht)⟩⟩

/-- C3: of the two option strings named in the doc comment of `roptsFromString`,
`s+dp` is parsed (seasons with dungeons and portals), but `ages+hk` is rejected:
the rune `k` (107) reaches the default case of the flag switch, and the result is
nil with the error `unknown flag: 107`. -/
theorem roptsFromString_doc_examples (gopts : Option globalOptions) :
    roptsFromString "s+dp" gopts =
      (some { gopts := gopts, game := gameSeasons, treewarp := false, hard := false,
              dungeons := true, portals := true, plan := none }, none) ∧
    roptsFromString "ages+hk" gopts = (none, some "unknown flag: 107") :=
  ⟨rfl, rfl⟩

/-! ## Hexadecimal rendering and `optString` -/

theorem hexFixed_length (w n : Nat) : (hexFixed w n).length = w := by
  induction w generalizing n with
  | zero => rfl
  | succ w ih => simp [hexFixed, ih]

theorem hexFixed_zero (w : Nat) : hexFixed w 0 = List.replicate w '0' := by
  induction w with
  | zero => rfl
  | succ w ih =>
    have h0 : hexDigit 0 = '0' := by decide
    simp only [hexFixed, Nat.zero_div, Nat.zero_mod, ih, h0]
    exact (List.replicate_succ' w '0').symm

theorem fmtHexDigits_pad (k : Nat) : ∀ fuel n : Nat, 1 ≤ k → k ≤ fuel → n < 16 ^ k →
    List.replicate (k - (fmtHexDigits fuel n).length) '0' ++ fmtHexDigits fuel n =
      hexFixed k n := by
  induction k with
  | zero => intro fuel n h; omega
  | succ k ih =>
    intro fuel n _ hf hn
    obtain ⟨f, rfl⟩ : ∃ f, fuel = f + 1 := ⟨fuel - 1, by omega⟩
    unfold fmtHexDigits
    by_cases h16 : n < 16
    · rw [if_pos h16]
      have hd : n / 16 = 0 := Nat.div_eq_of_lt h16
      have hm : n % 16 = n := Nat.mod_eq_of_lt h16
      simp only [hexFixed, hd, hm, hexFixed_zero, List.length_singleton,
        Nat.add_sub_cancel]
    · rw [if_neg h16]
      have hk : 1 ≤ k := by
        rcases Nat.eq_zero_or_pos k with rfl | hk
        · simp at hn; omega
        · exact hk
      have hdiv : n / 16 < 16 ^ k := by
        rw [Nat.div_lt_iff_lt_mul (by decide)]
        rw [pow_succ] at hn
        exact hn
      have hI := ih f (n / 16) hk (by omega) hdiv
      have hlen := congrArg List.length hI
      simp only [List.length_append, List.length_replicate, hexFixed_length] at hlen
      have hsub : k + 1 - ((fmtHexDigits f (n / 16)).length + 1) =
          k - (fmtHexDigits f (n / 16)).length := by omega
      simp only [List.length_append, List.length_singleton, hsub, hexFixed]
      rw [← List.append_assoc, hI]

theorem sprintfHex_eq_hexFixed (k n : Nat) (h1 : 1 ≤ k) (h16 : k ≤ 16) (hn : n < 16 ^ k) :
    sprintfHex k n = String.mk (hexFixed k n) := by
  unfold sprintfHex
  rw [fmtHexDigits_pad k 16 n h1 h16 hn]

theorem hexDigit_mem (d : Nat) (h : d < 16) : hexDigit d ∈ "0123456789abcdef".data := by
  interval_cases d <;> decide

theorem hexFixed_mem (w n : Nat) : ∀ c ∈ hexFixed w n, c ∈ "0123456789abcdef".data := by
  induction w generalizing n with
  | zero => intro c hc; simp [hexFixed] at hc
  | succ w ih =>
    intro c hc
    simp only [hexFixed, List.mem_append, List.mem_singleton] at hc
    rcases hc with hc | rfl
    · exact ih _ c hc
    · exact hexDigit_mem _ (Nat.mod_lt _ (by decide))

theorem hexFixed_eight (n : Nat) :
    hexFixed 8 n =
      [hexDigit (n / 16 ^ 7 % 16), hexDigit (n / 16 ^ 6 % 16), hexDigit (n / 16 ^ 5 % 16),
       hexDigit (n / 16 ^ 4 % 16), hexDigit (n / 16 ^ 3 % 16), hexDigit (n / 16 ^ 2 % 16),
       hexDigit (n / 16 ^ 1 % 16), hexDigit (n % 16)] := by
  simp [hexFixed, Nat.div_div_eq_div_mul]

theorem hexFixed_three (n : Nat) :
    hexFixed 3 n =
      [hexDigit (n / 16 ^ 2 % 16), hexDigit (n / 16 ^ 1 % 16), hexDigit (n % 16)] := by
  simp [hexFixed, Nat.div_div_eq_div_mul]

theorem optString_seed_mode (sha1Sum : String → List Nat) (seed : Nat) (ropts : randomizerOptions)
    (flagSep : String) (gopts : globalOptions)
    (hplan : ropts.plan = none) (hg : ropts.gopts = some gopts) :
    optString sha1Sum seed ropts flagSep =
      some ((if gopts.race then "race-" ++ sprintfHex 3 (seed >>> 20) else sprintfHex 8 seed) ++
        (if ropts.treewarp || ropts.hard || ropts.dungeons || ropts.portals then
          flagSep ++ flagString ropts.treewarp ropts.hard ropts.dungeons ropts.portals
         else "")) := by
  obtain ⟨g, gm, t, h, d, p, pl⟩ := ropts
  simp only at hplan hg
  subst hplan hg
  cases t <;> cases h <;> cases d <;> cases p <;> cases hr : gopts.race <;>
    simp [optString, flagString, hr, String.append_assoc]

theorem optString_plan_mode (sha1Sum : String → List Nat) (seed : Nat)
    (ropts : randomizerOptions) (flagSep : String) (pl : plan) (hplan : ropts.plan = some pl) :
    optString sha1Sum seed ropts flagSep =
      some ("plan-" ++
          sprintfHex 3
            ((((sha1Sum pl.source).getD 0 0 <<< 8) + (sha1Sum pl.source).getD 1 0) >>> 4) ++
        (if ropts.treewarp then flagSep ++ "t" else "")) := by
  obtain ⟨g, gm, t, h, d, p, pl2⟩ := ropts
  simp only at hplan
  subst hplan
  cases t <;> simp [optString, String.append_assoc]

theorem digest_prefix_lt (b0 b1 : Nat) (h0 : b0 < 256) (h1 : b1 < 256) :
    ((b0 <<< 8) + b1) >>> 4 < 4096 ∧ ((b0 <<< 8) + b1) >>> 4 = (b0 * 256 + b1) / 16 := by
  have hl : b0 <<< 8 = b0 * 256 := by simp [Nat.shiftLeft_eq]
  have hr : ((b0 <<< 8) + b1) >>> 4 = (b0 * 256 + b1) / 16 := by
    rw [Nat.shiftRight_eq_div_pow, hl]
  rw [hr]
  constructor
  · omega
  · rfl

/-- C4: outside plan and race mode `optString` returns the seed as exactly eight
lowercase zero-padded hexadecimal digits (digit `i` is `seed / 16^(7-i) % 16`),
followed by nothing when no option is set, and otherwise by the separator and the
letters of the set options in the order `t`, `h`, `d`, `p`, each at most once. -/
theorem optString_normal (sha1Sum : String → List Nat) (seed : Nat)
    (ropts : randomizerOptions) (flagSep : String) (gopts : globalOptions)
    (hseed : seed < 2 ^ 32) (hplan : ropts.plan = none) (hg : ropts.gopts = some gopts)
    (hrace : gopts.race = false) :
    optString sha1Sum seed ropts flagSep =
      some (String.mk (hexFixed 8 seed) ++
        (if ropts.treewarp || ropts.hard || ropts.dungeons || ropts.portals then
          flagSep ++ flagString ropts.treewarp ropts.hard ropts.dungeons ropts.portals
         else "")) ∧
    (hexFixed 8 seed).length = 8 ∧
    (∀ c ∈ hexFixed 8 seed, c ∈ "0123456789abcdef".data) ∧
    hexFixed 8 seed =
      [hexDigit (seed / 16 ^ 7 % 16), hexDigit (seed / 16 ^ 6 % 16),
       hexDigit (seed / 16 ^ 5 % 16), hexDigit (seed / 16 ^ 4 % 16),
       hexDigit (seed / 16 ^ 3 % 16), hexDigit (seed / 16 ^ 2 % 16),
       hexDigit (seed / 16 ^ 1 % 16), hexDigit (seed % 16)] ∧
    (flagString ropts.treewarp ropts.hard ropts.dungeons ropts.portals).data =
      (if ropts.treewarp then ['t'] else []) ++ (if ropts.hard then ['h'] else []) ++
      (if ropts.dungeons then ['d'] else []) ++ (if ropts.portals then ['p'] else []) := by
  refine ⟨?_, hexFixed_length 8 seed, hexFixed_mem 8 seed, hexFixed_eight seed, ?_⟩
  · rw [optString_seed_mode sha1Sum seed ropts flagSep gopts hplan hg, hrace,
      sprintfHex_eq_hexFixed 8 seed (by decide) (by decide) (by omega)]
    simp
  · cases ropts.treewarp <;> cases ropts.hard <;> cases ropts.dungeons <;>
      cases ropts.portals <;> rfl

/-- C4, at the seed `0x01234567` with treewarp, dungeons and portals set and the
separator `-`. -/
theorem optString_normal_witness :
    optString (fun _ => []) 0x01234567
      { gopts := some { race := false, seed := "", includes := [] }, game := gameSeasons,
        treewarp := true, hard := false, dungeons := true, portals := true, plan := none }
      "-" = some "01234567-tdp" :=
  (optString_normal (fun _ => []) 0x01234567
    { gopts := some { race := false, seed := "", includes := [] }, game := gameSeasons,
      treewarp := true, hard := false, dungeons := true, portals := true, plan := none }
    "-" { race := false, seed := "", includes := [] } (by decide) rfl rfl rfl).1.trans
    (by decide)

/-- C5: in race mode `optString` returns `race-`, then exactly three hexadecimal
digits that encode `seed >> 20` (the top 12 bits of the seed, below 4096), then the
same flag suffix as in normal mode; two seeds with the same top 12 bits give the
same string for the same options. -/
theorem optString_race (sha1Sum : String → List Nat) (seed : Nat)
    (ropts : randomizerOptions) (flagSep : String) (gopts : globalOptions)
    (hseed : seed < 2 ^ 32) (hplan : ropts.plan = none) (hg : ropts.gopts = some gopts)
    (hrace : gopts.race = true) :
    optString sha1Sum seed ropts flagSep =
      some ("race-" ++ String.mk (hexFixed 3 (seed >>> 20)) ++
        (if ropts.treewarp || ropts.hard || ropts.dungeons || ropts.portals then
          flagSep ++ flagString ropts.treewarp ropts.hard ropts.dungeons ropts.portals
         else "")) ∧
    seed >>> 20 = seed / 2 ^ 20 ∧ seed >>> 20 < 4096 ∧
    (hexFixed 3 (seed >>> 20)).length = 3 ∧
    (∀ c ∈ hexFixed 3 (seed >>> 20), c ∈ "0123456789abcdef".data) ∧
    hexFixed 3 (seed >>> 20) =
      [hexDigit (seed >>> 20 / 16 ^ 2 % 16), hexDigit (seed >>> 20 / 16 ^ 1 % 16),
       hexDigit (seed >>> 20 % 16)] ∧
    (∀ seed2 : Nat, seed2 < 2 ^ 32 → seed2 >>> 20 = seed >>> 20 →
      optString sha1Sum seed2 ropts flagSep = optString sha1Sum seed ropts flagSep) := by
  have hdiv : seed >>> 20 = seed / 2 ^ 20 := Nat.shiftRight_eq_div_pow seed 20
  have hlt : seed >>> 20 < 4096 := by rw [hdiv]; omega
  refine ⟨?_, hdiv, hlt, hexFixed_length 3 _, hexFixed_mem 3 _, hexFixed_three _, ?_⟩
  · rw [optString_seed_mode sha1Sum seed ropts flagSep gopts hplan hg, hrace,
      sprintfHex_eq_hexFixed 3 (seed >>> 20) (by decide) (by decide) (by omega)]
    simp
  · intro seed2 _ h2
    rw [optString_seed_mode sha1Sum seed ropts flagSep gopts hplan hg,
      optString_seed_mode sha1Sum seed2 ropts flagSep gopts hplan hg, hrace, h2]
    simp

/-- C5, at the seeds `0x012fffff` and `0x01200000`, which agree in their top 12
bits, with hard set and the separator `-`. -/
theorem optString_race_witness :
    optString (fun _ => []) 0x012fffff
      { gopts := some { race := true, seed := "", includes := [] }, game := gameAges,
        treewarp := false, hard := true, dungeons := false, portals := false, plan := none }
      "-" = some "race-012-h" ∧
    optString (fun _ => []) 0x01200000
      { gopts := some { race := true, seed := "", includes := [] }, game := gameAges,
        treewarp := false, hard := true, dungeons := false, portals := false, plan := none }
      "-" = some "race-012-h" :=
  have h := optString_race (fun _ => []) 0x012fffff
    { gopts := some { race := true, seed := "", includes := [] }, game := gameAges,
      treewarp := false, hard := true, dungeons := false, portals := false, plan := none }
    "-" { race := true, seed := "", includes := [] } (by decide) rfl rfl rfl
  ⟨h.1.trans (by decide),
    (h.2.2.2.2.2.2 0x01200000 (by decide) (by decide)).trans (h.1.trans (by decide))⟩

/-- C6: with a plan, `optString` returns `plan-`, then exactly three hexadecimal
digits that encode the top 12 bits of the digest of the plan source
(`((sum[0] << 8) + sum[1]) >> 4`, below 4096), then the separator and `t` exactly
when treewarp is set; the seed, `gopts` (so `race`), `game`, `hard`, `dungeons` and
`portals` have no influence on the result. -/
theorem optString_plan (sha1Sum : String → List Nat) (seed : Nat)
    (ropts : randomizerOptions) (flagSep : String) (pl : plan)
    (hplan : ropts.plan = some pl) (hsum : ∀ b ∈ sha1Sum pl.source, b < 256) :
    optString sha1Sum seed ropts flagSep =
      some ("plan-" ++
        String.mk (hexFixed 3
          ((((sha1Sum pl.source).getD 0 0 <<< 8) + (sha1Sum pl.source).getD 1 0) >>> 4)) ++
        (if ropts.treewarp then flagSep ++ "t" else "")) ∧
    (((sha1Sum pl.source).getD 0 0 <<< 8) + (sha1Sum pl.source).getD 1 0) >>> 4 < 4096 ∧
    (((sha1Sum pl.source).getD 0 0 <<< 8) + (sha1Sum pl.source).getD 1 0) >>> 4 =
      ((sha1Sum pl.source).getD 0 0 * 256 + (sha1Sum pl.source).getD 1 0) / 16 ∧
    (hexFixed 3
      ((((sha1Sum pl.source).getD 0 0 <<< 8) + (sha1Sum pl.source).getD 1 0) >>> 4)).length
      = 3 ∧
    (∀ c ∈ hexFixed 3
        ((((sha1Sum pl.source).getD 0 0 <<< 8) + (sha1Sum pl.source).getD 1 0) >>> 4),
      c ∈ "0123456789abcdef".data) ∧
    (∀ (seed2 : Nat) (ropts2 : randomizerOptions) (pl2 : plan),
      ropts2.plan = some pl2 → pl2.source = pl.source → ropts2.treewarp = ropts.treewarp →
      optString sha1Sum seed2 ropts2 flagSep = optString sha1Sum seed ropts flagSep) := by
  have hbyte : ∀ i, (sha1Sum pl.source).getD i 0 < 256 := by
    intro i
    rw [List.getD_eq_getElem?_getD]
    cases hi : (sha1Sum pl.source)[i]? with
    | none => simp
    | some b =>
      simp only [Option.getD_some]
      rw [List.getElem?_eq_some_iff] at hi
      obtain ⟨hlt, hb⟩ := hi
      exact hsum b (hb ▸ List.getElem_mem hlt)
  have hd := digest_prefix_lt _ _ (hbyte 0) (hbyte 1)
  refine ⟨?_, hd.1, hd.2, hexFixed_length 3 _, hexFixed_mem 3 _, ?_⟩
  · rw [optString_plan_mode sha1Sum seed ropts flagSep pl hplan,
      sprintfHex_eq_hexFixed 3 _ (by decide) (by decide) (by have := hd.1; omega)]
  · intro seed2 ropts2 pl2 h2 hsrc htw
    rw [optString_plan_mode sha1Sum seed ropts flagSep pl hplan,
      optString_plan_mode sha1Sum seed2 ropts2 flagSep pl2 h2, hsrc, htw]

/-- C6, at a plan whose source has the digest `a9 99 3e 36 ...` (the SHA-1 digest
of `abc`), with treewarp set and the separator `+`. -/
theorem optString_plan_witness :
    optString
      (fun _ => [0xa9, 0x99, 0x3e, 0x36, 0x47, 0x06, 0x81, 0x6a, 0xba, 0x3e,
                 0x25, 0x71, 0x78, 0x50, 0xc2, 0x6c, 0x9c, 0xd0, 0xd8, 0x9d])
      0x01234567
      { gopts := none, game := gameAges, treewarp := true, hard := true, dungeons := false,
        portals := true, plan := some { source := "abc" } }
      "+" = some "plan-a99+t" :=
  (optString_plan
    (fun _ => [0xa9, 0x99, 0x3e, 0x36, 0x47, 0x06, 0x81, 0x6a, 0xba, 0x3e,
               0x25, 0x71, 0x78, 0x50, 0xc2, 0x6c, 0x9c, 0xd0, 0xd8, 0x9d])
    0x01234567
    { gopts := none, game := gameAges, treewarp := true, hard := true, dungeons := false,
      portals := true, plan := some { source := "abc" } }
    "+" { source := "abc" } rfl (by decide)).1.trans (by decide)

/-! ## `setRandomSeed` -/

theorem stringsReplaceFirst_of_not_mem (l : List Char) (h : 'x' ∉ l) :
    stringsReplaceFirst "0x".data [] l = l := by
  induction l with
  | nil => rfl
  | cons c cs ih =>
    have hcs : 'x' ∉ cs := fun hx => h (List.mem_cons_of_mem _ hx)
    unfold stringsReplaceFirst
    have hp : List.isPrefixOf "0x".data (c :: cs) = false := by
      cases cs with
      | nil => simp [List.isPrefixOf]
      | cons d ds =>
        have hd : d ≠ 'x' := fun e => hcs (e ▸ List.mem_cons_self _ _)
        simp only [List.isPrefixOf, Bool.and_true, Bool.and_eq_false_imp, beq_iff_eq,
          beq_eq_false_iff_ne, ne_eq]
        intro _ e
        exact hd e.symm
    rw [hp]
    simp [ih hcs]

theorem stringsReplaceFirst_leading (l : List Char) :
    stringsReplaceFirst "0x".data [] ('0' :: 'x' :: l) = l := by
  simp [stringsReplaceFirst, List.isPrefixOf]

theorem hexFixed_no_x (w n : Nat) : 'x' ∉ hexFixed w n := by
  intro h
  have := hexFixed_mem w n 'x' h
  revert this
  decide

theorem hexDigitValue_hexDigit (d : Nat) (h : d < 16) : hexDigitValue (hexDigit d) = some d := by
  interval_cases d <;> decide

theorem parseUintLoop_append (l : List Char) (c : Char) (n : Nat) :
    parseUintLoop (l ++ [c]) n = (parseUintLoop l n).bind (fun m => parseUintLoop [c] m) := by
  induction l generalizing n with
  | nil => simp [parseUintLoop]
  | cons a as ih =>
    simp only [List.cons_append]
    unfold parseUintLoop
    cases hexDigitValue a with
    | none => simp
    | some d =>
      simp only
      split
      · simp
      · split
        · simp
        · exact ih _

theorem parseUintLoop_hexFixed (w : Nat) : ∀ n : Nat, n < 16 ^ w → n < 2 ^ 32 →
    parseUintLoop (hexFixed w n) 0 = some n := by
  induction w with
  | zero =>
    intro n hn _
    simp at hn
    subst hn
    rfl
  | succ w ih =>
    intro n hn h32
    have hdiv : n / 16 < 16 ^ w := by
      rw [Nat.div_lt_iff_lt_mul (by decide)]
      rw [pow_succ] at hn
      exact hn
    have hI := ih (n / 16) hdiv (by omega)
    simp only [hexFixed]
    rw [parseUintLoop_append, hI]
    simp only [Option.some_bind, parseUintLoop,
      hexDigitValue_hexDigit _ (Nat.mod_lt n (by decide))]
    have h1 : ¬ n / 16 ≥ (2 ^ 64 - 1) / 16 + 1 := by omega
    have h2 : ¬ n / 16 * 16 + n % 16 > 2 ^ 32 - 1 := by omega
    rw [if_neg h1, if_neg h2]
    congr 1
    omega

/-- C7: the seed can be fed back.  For every 32-bit seed `s`, `setRandomSeed`
applied to the `%08x` rendering of `s` (the one `optString` and `writeRom` use),
with or without a leading `0x`, returns `s` without an error and seeds the random
source with `s`, whatever the current time. -/
theorem setRandomSeed_roundtrip (s : Nat) (hs : s < 2 ^ 32) (now : Int) :
    setRandomSeed now (sprintfHex 8 s) = { seed := s, err := none, randSeed := some (s : Int) } ∧
    setRandomSeed now ("0x" ++ sprintfHex 8 s) =
      { seed := s, err := none, randSeed := some (s : Int) } := by
  have h8 : sprintfHex 8 s = String.mk (hexFixed 8 s) :=
    sprintfHex_eq_hexFixed 8 s (by decide) (by decide) (by omega)
  have hparse : parseUint (hexFixed 8 s) = some s := by
    unfold parseUint
    have hne : hexFixed 8 s ≠ [] := by
      intro e
      have := hexFixed_length 8 s
      rw [e] at this
      simp at this
    rw [if_neg hne]
    exact parseUintLoop_hexFixed 8 s (by omega) hs
  have hmod : s % 2 ^ 32 = s := Nat.mod_eq_of_lt hs
  have hne1 : String.mk (hexFixed 8 s) ≠ "" := by
    intro e
    have hnil : hexFixed 8 s = [] := congrArg String.data e
    have hl := hexFixed_length 8 s
    rw [hnil] at hl
    exact absurd hl (by decide)
  have hne2 : "0x" ++ String.mk (hexFixed 8 s) ≠ "" := by
    intro e
    have hnil : '0' :: 'x' :: hexFixed 8 s = [] := congrArg String.data e
    exact absurd hnil (List.cons_ne_nil _ _)
  have hrep : stringsReplaceFirst "0x".data [] ("0x" ++ String.mk (hexFixed 8 s)).data =
      hexFixed 8 s := stringsReplaceFirst_leading _
  constructor
  · rw [h8]
    unfold setRandomSeed
    rw [if_pos hne1]
    simp only [stringsReplaceFirst_of_not_mem _ (hexFixed_no_x 8 s), hparse, hmod]
  · rw [h8]
    unfold setRandomSeed
    rw [if_pos hne2]
    simp only [hrep, hparse, hmod]

/-- C7, at the seed `0xdeadbeef`. -/
theorem setRandomSeed_roundtrip_witness :
    sprintfHex 8 0xdeadbeef = "deadbeef" ∧
    setRandomSeed 1730000000000000000 "deadbeef" =
      { seed := 0xdeadbeef, err := none, randSeed := some 0xdeadbeef } ∧
    setRandomSeed (-5) "0xdeadbeef" =
      { seed := 0xdeadbeef, err := none, randSeed := some 0xdeadbeef } :=
  ⟨by decide, (setRandomSeed_roundtrip 0xdeadbeef (by decide) 1730000000000000000).1,
    (setRandomSeed_roundtrip 0xdeadbeef (by decide) (-5)).2⟩

/-! ## `orderedKeys` -/

theorem bytesLess_iff_lex (a b : List Nat) :
    bytesLess a b = true ↔ List.Lex (· < ·) a b := by
  induction a generalizing b with
  | nil =>
    cases b with
    | nil => simp [bytesLess]
    | cons y ys => simp [bytesLess, List.Lex.nil]
  | cons x xs ih =>
    cases b with
    | nil => simp [bytesLess]
    | cons y ys =>
      unfold bytesLess
      by_cases h1 : x < y
      · simp [h1, List.Lex.rel h1]
      · by_cases h2 : y < x
        · simp only [h1, h2, if_true, if_false, Bool.false_eq_true, false_iff]
          intro hl
          cases hl with
          | cons h => exact absurd h2 (lt_irrefl _)
          | rel h => exact h1 h
        · have hxy : x = y := by omega
          subst hxy
          simp only [h1, if_false, ih, List.Lex.cons_iff]

theorem bytesLess_asymm (a b : List Nat) (h : bytesLess a b = true) : bytesLess b a = false := by
  cases hb : bytesLess b a with
  | false => rfl
  | true =>
    rw [bytesLess_iff_lex] at h hb
    exact absurd hb ((List.Lex.isAsymm (· < · : Nat → Nat → Prop)).asymm a b h)

theorem bytesLess_irrefl (a : List Nat) : bytesLess a a = false := by
  cases ha : bytesLess a a with
  | false => rfl
  | true =>
    have h := bytesLess_asymm a a ha
    rw [ha] at h
    exact h

theorem bytesLess_trichotomy (a b : List Nat) :
    bytesLess a b = true ∨ a = b ∨ bytesLess b a = true := by
  simp only [bytesLess_iff_lex]
  exact (List.Lex.isTrichotomous (· < · : Nat → Nat → Prop)).trichotomous a b

theorem bytesLess_trans (a b c : List Nat) (h1 : bytesLess a b = true)
    (h2 : bytesLess b c = true) : bytesLess a c = true := by
  rw [bytesLess_iff_lex] at h1 h2 ⊢
  exact @IsTrans.trans (List Nat) (List.Lex (· < ·)) _ a b c h1 h2

theorem sortStrings_sorted (a : List (List Nat)) :
    (sortStrings a).Sorted (fun x y => bytesLess y x = false) := by
  haveI : IsTotal (List Nat) (fun x y => bytesLess y x = false) := ⟨by
    intro x y
    rcases bytesLess_trichotomy x y with h | h | h
    · exact Or.inl (bytesLess_asymm _ _ h)
    · subst h
      exact Or.inl (bytesLess_irrefl x)
    · exact Or.inr (bytesLess_asymm _ _ h)⟩
  haveI : IsTrans (List Nat) (fun x y => bytesLess y x = false) := ⟨by
    intro x y z hxy hyz
    cases hzx : bytesLess z x with
    | false => rfl
    | true =>
      rcases bytesLess_trichotomy y z with h | h | h
      · rw [bytesLess_trans y z x h hzx] at hxy
        exact absurd hxy (by decide)
      · subst h
        rw [hzx] at hxy
        exact absurd hxy (by decide)
      · rw [h] at hyz
        exact absurd hyz (by decide)⟩
  exact List.sorted_insertionSort _ a

theorem sortStrings_perm (a : List (List Nat)) : (sortStrings a).Perm a :=
  List.perm_insertionSort _ a

theorem fillKeys_append (keys : List (List Nat)) :
    ∀ (done blank : List (List Nat)), keys.length ≤ blank.length →
      fillKeys keys done.length (done ++ blank) = done ++ keys ++ blank.drop keys.length := by
  induction keys with
  | nil => intro done blank _; simp [fillKeys]
  | cons key rest ih =>
    intro done blank hlen
    cases blank with
    | nil => simp at hlen
    | cons b bs =>
      have hset : (done ++ b :: bs).set done.length key = (done ++ [key]) ++ bs := by
        simp
      have hI := ih (done ++ [key]) bs (by simpa using hlen)
      simp only [List.length_append, List.length_singleton] at hI
      simp only [fillKeys, hset, hI]
      simp

theorem fillKeys_replicate (keys : List (List Nat)) :
    fillKeys keys 0 (List.replicate keys.length []) = keys := by
  have h := fillKeys_append keys [] (List.replicate keys.length []) (by simp)
  simpa using h

/-- C8: `orderedKeys` returns the keys of a map sorted.  For every enumeration
`mapKeys` of the keys of a map (no key twice), the result has as many elements as
the map has keys, contains exactly the keys of the map and none of them twice, and
is strictly ascending in the byte-wise order of strings (`bytesLess`, which is the
lexicographic order on byte lists); any other enumeration of the same keys gives
the same result. -/
theorem orderedKeys_sorted (mapKeys : List (List Nat)) (hkeys : mapKeys.Nodup) :
    (orderedKeys mapKeys).length = mapKeys.length ∧
    (∀ k, k ∈ orderedKeys mapKeys ↔ k ∈ mapKeys) ∧
    (orderedKeys mapKeys).Nodup ∧
    (orderedKeys mapKeys).Pairwise (fun x y => bytesLess x y = true) ∧
    (∀ x y, bytesLess x y = true ↔ List.Lex (· < ·) x y) ∧
    (∀ other : List (List Nat), other.Perm mapKeys →
      orderedKeys other = orderedKeys mapKeys) := by
  have hdef : ∀ l : List (List Nat), orderedKeys l = sortStrings l := by
    intro l
    simp only [orderedKeys, fillKeys_replicate]
  have hperm : (orderedKeys mapKeys).Perm mapKeys := by
    rw [hdef]
    exact sortStrings_perm mapKeys
  have hnodup : (orderedKeys mapKeys).Nodup := hperm.nodup_iff.2 hkeys
  have hsorted : (orderedKeys mapKeys).Sorted (fun x y => bytesLess y x = false) := by
    rw [hdef]
    exact sortStrings_sorted mapKeys
  have hstrict : ∀ l : List (List Nat), l.Nodup →
      l.Pairwise (fun x y => bytesLess y x = false) →
      l.Pairwise (fun x y => bytesLess x y = true) := by
    intro l hn hs
    have hboth := hn.and hs
    refine hboth.imp ?_
    intro x y hxy
    rcases bytesLess_trichotomy x y with h | h | h
    · exact h
    · exact absurd h hxy.1
    · rw [h] at hxy
      exact absurd hxy.2 (by decide)
  refine ⟨hperm.length_eq, fun k => hperm.mem_iff, hnodup, hstrict _ hnodup hsorted,
    bytesLess_iff_lex, ?_⟩
  · intro other hother
    have hn2 : other.Nodup := hother.nodup_iff.2 hkeys
    have hp2 : (orderedKeys other).Perm other := by
      rw [hdef]
      exact sortStrings_perm other
    have hs2 : (orderedKeys other).Sorted (fun x y => bytesLess y x = false) := by
      rw [hdef]
      exact sortStrings_sorted other
    have hpp : (orderedKeys other).Perm (orderedKeys mapKeys) :=
      (hp2.trans hother).trans hperm.symm
    have h1 := hstrict _ (hp2.nodup_iff.2 hn2) hs2
    have h2 := hstrict _ hnodup hsorted
    haveI : IsAntisymm (List Nat) (fun x y => bytesLess x y = true) := ⟨by
      intro x y hxy hyx
      rw [bytesLess_asymm x y hxy] at hyx
      exact absurd hyx (by decide)⟩
    exact List.eq_of_perm_of_sorted hpp h1 h2

/-- C8, at a map with the keys `b`, `ab`, `a` and `B` (as bytes), enumerated in
that order: the result is `B`, `a`, `ab`, `b`. -/
theorem orderedKeys_sorted_witness :
    orderedKeys [[98], [97, 98], [97], [66]] = [[66], [97], [97, 98], [98]] ∧
    (orderedKeys [[98], [97, 98], [97], [66]]).length = 4 :=
  ⟨by decide, (orderedKeys_sorted [[98], [97, 98], [97], [66]] (by decide)).1⟩

end Randomizer

namespace Rom

/-! ## `SetAnimal` -/

/-- C9: for a companion number `c` in 1..3, `SetAnimal(c)` replaces the `New`
bytes of the mutable `animal region` by the single byte `c + 0x0a`, that is
`0x0b`, `0x0c`, `0x0d`, the param bytes of `ricky's flute`, `dimitri's flute` and
`moosh's flute` in `agesTreasures`; the `Addrs` and `Old` of that mutable, every
other mutable and the map `varMutables` itself are unchanged.  The entry
`animal region` is taken to be present and a `*MutableRange`. -/
theorem SetAnimal_frame (st : mutableState) (companion : Int) (p : Nat) (mr : MutableRange)
    (hc : companion = 1 ∨ companion = 2 ∨ companion = 3)
    (hp : st.varMutables "animal region" = some p)
    (hmr : st.heap p = some (Mutable.range mr)) :
    ∃ st2 : mutableState, SetAnimal companion st = some st2 ∧
      st2.heap p = some (Mutable.range
        { Addrs := mr.Addrs, Old := mr.Old, New := [(companion + 0x0a).toNat] }) ∧
      (∀ q, q ≠ p → st2.heap q = st.heap q) ∧
      st2.varMutables = st.varMutables ∧
      (companion = 1 → (companion + 0x0a).toNat = 0x0b) ∧
      (companion = 2 → (companion + 0x0a).toNat = 0x0c) ∧
      (companion = 3 → (companion + 0x0a).toNat = 0x0d) ∧
      (agesTreasures.lookup "ricky's flute").map Treasure.param = some 0x0b ∧
      (agesTreasures.lookup "dimitri's flute").map Treasure.param = some 0x0c ∧
      (agesTreasures.lookup "moosh's flute").map Treasure.param = some 0x0d := by
  have hbyte : ((companion + 0x0a) % 256).toNat = (companion + 0x0a).toNat := by
    rcases hc with rfl | rfl | rfl <;> rfl
  refine ⟨{ st with
      heap := fun q =>
        if q = p then
          some (Mutable.range { mr with New := [((companion + 0x0a) % 256).toNat] })
        else st.heap q }, ?_, ?_, ?_, rfl, ?_, ?_, ?_, by decide, by decide, by decide⟩
  · simp only [SetAnimal, hp, hmr]
  · simp only [if_true, hbyte]
  · intro q hq
    simp only [if_neg hq]
  · rintro rfl; rfl
  · rintro rfl; rfl
  · rintro rfl; rfl

/-- C9, at the companion 2 and a state whose `animal region` is the object at
address 0 and which holds a second mutable at address 1. -/
theorem SetAnimal_frame_witness :
    ((SetAnimal 2
        { heap := fun q =>
            if q = 0 then
              some (Mutable.range (MutableByte { Bank := 0x01, Offset := 0x1234 } 0x0b 0x0b))
            else if q = 1 then
              some (Mutable.range (MutableByte { Bank := 0x02, Offset := 0x4000 } 0x00 0x01))
            else none
          varMutables := fun k =>
            if k = "animal region" then some 0 else if k = "other" then some 1 else none }).map
      (fun st2 => (st2.heap 0, st2.heap 1))) =
    some
      (some (Mutable.range
          { Addrs := [{ Bank := 0x01, Offset := 0x1234 }], Old := [0x0b], New := [0x0c] }),
       some (Mutable.range (MutableByte { Bank := 0x02, Offset := 0x4000 } 0x00 0x01))) := by
  obtain ⟨st2, h1, h2, h3, -⟩ := SetAnimal_frame
    { heap := fun q =>
        if q = 0 then
          some (Mutable.range (MutableByte { Bank := 0x01, Offset := 0x1234 } 0x0b 0x0b))
        else if q = 1 then
          some (Mutable.range (MutableByte { Bank := 0x02, Offset := 0x4000 } 0x00 0x01))
        else none
      varMutables := fun k =>
        if k = "animal region" then some 0 else if k = "other" then some 1 else none }
    2 0 (MutableByte { Bank := 0x01, Offset := 0x1234 } 0x0b 0x0b)
    (Or.inr (Or.inl rfl)) rfl rfl
  rw [h1]
  simp only [Option.map_some']
  rw [h2, h3 1 (by decide)]
  rfl

end Rom

namespace Logic

/-! ## The table `labrynnaNodes` -/

/-- C10: the slot `tingle's upgrade` is `AndSlot("tingle", seeds)`, and for every
assignment of truth values to `ember seeds`, `scent seeds`, `pegasus seeds`,
`gale seeds` and `mystery seeds` the Or-term `seeds` is satisfied if and only if at
least three of these five names are held; the slot is satisfied if and only if,
in addition, `tingle` is satisfied.  This holds under normal and under hard
logic. -/
theorem tingles_upgrade_three_seeds (hard : Bool) (reached : String → Bool) :
    ∃ seeds : Node,
      labrynnaNodes.lookup "tingle's upgrade" = some (AndSlot [Node.ref "tingle", seeds]) ∧
      (satisfied hard reached seeds = true ↔
        3 ≤ ([reached "ember seeds", reached "scent seeds", reached "pegasus seeds",
              reached "gale seeds", reached "mystery seeds"].filter id).length) ∧
      (satisfied hard reached (AndSlot [Node.ref "tingle", seeds]) = true ↔
        reached "tingle" = true ∧
        3 ≤ ([reached "ember seeds", reached "scent seeds", reached "pegasus seeds",
              reached "gale seeds", reached "mystery seeds"].filter id).length) := by
  refine ⟨_, rfl, ?_, ?_⟩
  · simp only [satisfied, satisfiedAll, satisfiedAny, excluded, And, Or]
    generalize reached "ember seeds" = e
    generalize reached "scent seeds" = s
    generalize reached "pegasus seeds" = p
    generalize reached "gale seeds" = g
    generalize reached "mystery seeds" = m
    cases hard <;> cases e <;> cases s <;> cases p <;> cases g <;> cases m <;> decide
  · simp only [satisfied, satisfiedAll, satisfiedAny, excluded, And, Or, AndSlot]
    generalize reached "tingle" = t
    generalize reached "ember seeds" = e
    generalize reached "scent seeds" = s
    generalize reached "pegasus seeds" = p
    generalize reached "gale seeds" = g
    generalize reached "mystery seeds" = m
    cases hard <;> cases t <;> cases e <;> cases s <;> cases p <;> cases g <;> cases m <;>
      decide

end Logic

namespace Logic

/-! ## Evaluation of `labrynnaNodes` to its fixpoint -/

theorem lookup_eq_of_mem {β : Type} (l : List (String × β)) (h : (l.map Prod.fst).Nodup)
    (e : String × β) (he : e ∈ l) : l.lookup e.1 = some e.2 := by
  induction l with
  | nil => simp at he
  | cons x xs ih =>
    obtain ⟨k, b⟩ := x
    simp only [List.map_cons, List.nodup_cons] at h
    rcases List.mem_cons.1 he with rfl | he
    · simp [List.lookup]
    · have hne : e.1 ≠ k := by
        intro heq
        apply h.1
        rw [← heq]
        exact List.mem_map_of_mem Prod.fst he
      have hb : (e.1 == k) = false := by simpa using hne
      simp only [List.lookup, hb]
      exact ih h.2 he

theorem mem_of_lookup_eq {β : Type} (l : List (String × β)) (a : String) (b : β)
    (h : l.lookup a = some b) : (a, b) ∈ l := by
  induction l with
  | nil => simp [List.lookup] at h
  | cons x xs ih =>
    obtain ⟨k, c⟩ := x
    by_cases hk : a = k
    · subst hk
      simp [List.lookup] at h
      subst h
      exact List.mem_cons_self _ _
    · have hb : (a == k) = false := by simpa using hk
      simp only [List.lookup, hb] at h
      exact List.mem_cons_of_mem _ (ih h)

theorem labrynnaNodes_keys_nodup : (labrynnaNodes.map Prod.fst).Nodup := by decide

theorem mem_propagate (hard : Bool) (marked : List String) (name : String) :
    name ∈ propagate hard marked ↔
      name ∈ marked ∨
      ∃ node, labrynnaNodes.lookup name = some node ∧
        satisfied hard (fun s => marked.contains s) node = true := by
  unfold propagate
  rw [List.mem_append]
  constructor
  · rintro (h | h)
    · exact Or.inl h
    · right
      rw [List.mem_map] at h
      obtain ⟨e, he, rfl⟩ := h
      rw [List.mem_filter] at he
      refine ⟨e.2, lookup_eq_of_mem _ labrynnaNodes_keys_nodup e he.1, ?_⟩
      have h2 := he.2
      simp only [Bool.and_eq_true] at h2
      exact h2.2
  · rintro (h | ⟨node, hl, hs⟩)
    · exact Or.inl h
    · by_cases hm : name ∈ marked
      · exact Or.inl hm
      · right
        rw [List.mem_map]
        refine ⟨(name, node), ?_, rfl⟩
        rw [List.mem_filter]
        refine ⟨mem_of_lookup_eq _ _ _ hl, ?_⟩
        simp only [Bool.and_eq_true, Bool.not_eq_true', hs, and_true]
        simpa using hm

theorem mem_reachedAfter_of_held (hard : Bool) (held : List String) (name : String)
    (h : name ∈ held) : ∀ k, name ∈ reachedAfter hard held k := by
  intro k
  induction k with
  | zero => exact h
  | succ k ih => exact (mem_propagate _ _ _).2 (Or.inl ih)

theorem mem_reachedAfter_of_undefined (hard : Bool) (held : List String) (name : String)
    (h : labrynnaNodes.lookup name = none) (k : Nat) :
    name ∈ reachedAfter hard held k ↔ name ∈ held := by
  induction k with
  | zero => exact Iff.rfl
  | succ k ih =>
    show name ∈ propagate hard (reachedAfter hard held k) ↔ name ∈ held
    rw [mem_propagate, ih, h]
    simp

theorem zora_nodes_unreached (hard : Bool) (held : List String)
    (hheld : ∀ s ∈ held, labrynnaNodes.lookup s = none) (hages : "ages" ∉ held) :
    ∀ k, ∀ name ∈ zoraGroup, name ≠ "zora's reward" → name ∉ reachedAfter hard held k := by
  have ha : ∀ k, "ages" ∉ reachedAfter hard held k := by
    intro k h
    exact hages ((mem_reachedAfter_of_undefined hard held "ages" rfl k).1 h)
  intro k
  induction k with
  | zero =>
    intro name hname _ hin
    have hnone := hheld name hin
    simp only [zoraGroup, List.mem_cons, List.mem_singleton, List.not_mem_nil,
      or_false] at hname
    rcases hname with rfl | rfl | rfl | rfl | rfl | rfl | rfl | rfl | rfl | rfl | rfl | rfl |
      rfl | rfl <;> exact absurd (congrArg Option.isSome hnone) (by decide)
  | succ k ih =>
    have hv : "zora village" ∉ reachedAfter hard held k := ih _ (by decide) (by decide)
    have hk : "king zora" ∉ reachedAfter hard held k := ih _ (by decide) (by decide)
    have hc : "clean seas" ∉ reachedAfter hard held k := ih _ (by decide) (by decide)
    have hak := ha k
    intro name hname hne hin
    rcases (mem_propagate hard (reachedAfter hard held k) name).1 hin with h | ⟨node, hl, hs⟩
    · exact ih name hname hne h
    · simp only [zoraGroup, List.mem_cons, List.mem_singleton, List.not_mem_nil,
        or_false] at hname
      rcases hname with rfl | rfl | rfl | rfl | rfl | rfl | rfl | rfl | rfl | rfl | rfl | rfl |
        rfl | rfl
      all_goals first
        | exact absurd rfl hne
        | (have hnode := Option.some.inj (Eq.trans (Eq.symm hl) rfl)
           subst hnode
           simp [satisfied, satisfiedAll, satisfiedAny, excluded, And, AndSlot, hv, hk, hc,
             hak] at hs)

theorem zoras_reward_reached (hard : Bool) (held : List String)
    (hheld : ∀ s ∈ held, labrynnaNodes.lookup s = none) (k : Nat) :
    "zora's reward" ∈ reachedAfter hard held (k + 1) ↔ "d7 essence" ∈ held := by
  have hd : ∀ j, "d7 essence" ∈ reachedAfter hard held j ↔ "d7 essence" ∈ held :=
    mem_reachedAfter_of_undefined hard held "d7 essence" rfl
  have hstep : ∀ j, "zora's reward" ∈ reachedAfter hard held (j + 1) ↔
      "zora's reward" ∈ reachedAfter hard held j ∨ "d7 essence" ∈ held := by
    intro j
    show "zora's reward" ∈ propagate hard (reachedAfter hard held j) ↔ _
    rw [mem_propagate]
    constructor
    · rintro (h | ⟨node, hl, hs⟩)
      · exact Or.inl h
      · have hnode := Option.some.inj (Eq.trans (Eq.symm hl) rfl)
        subst hnode
        have hmem : "d7 essence" ∈ reachedAfter hard held j := by
          simpa [satisfied, satisfiedAll, excluded, AndSlot] using hs
        exact Or.inr ((hd j).1 hmem)
    · rintro (h | h)
      · exact Or.inl h
      · refine Or.inr ⟨AndSlot ["d7 essence"], rfl, ?_⟩
        have hmem : "d7 essence" ∈ reachedAfter hard held j := (hd j).2 h
        simpa [satisfied, satisfiedAll, excluded, AndSlot] using hmem
  have hzero : "zora's reward" ∉ reachedAfter hard held 0 := by
    intro hin
    exact absurd (congrArg Option.isSome (hheld _ hin)) (by decide)
  induction k with
  | zero =>
    rw [hstep 0]
    constructor
    · rintro (h | h)
      · exact absurd h hzero
      · exact h
    · exact Or.inr
  | succ k ih =>
    constructor
    · intro h
      rcases (hstep (k + 1)).1 h with h1 | h1
      · exact ih.1 h1
      · exact h1
    · intro h
      exact (hstep (k + 1)).2 (Or.inr h)

/-- C11: the table at the node `zora's reward`.  The node belongs to the group
`zora village / zora seas` (the run of 14 entries of the table that starts at
`zora village`), its entry is `AndSlot("d7 essence")`, and `d7 essence` is not
defined in the table.  With the held-set `d7 essence`, in which `ages` is not held,
the first pass marks `zora's reward`, and it stays marked in every later pass, under
normal and under hard logic.  For every held-set over names that the table does not
define, `zora's reward` is reached exactly when `d7 essence` is held, whether or not
`ages` is held.  The other 13 nodes of the group are never reached, and their terms
never satisfied, when `ages` is not held. -/
theorem zoras_reward_without_ages (hard : Bool) (k : Nat) :
    "zora's reward" ∈ zoraGroup ∧
    zoraGroup = ((labrynnaNodes.drop 97).take 14).map Prod.fst ∧
    labrynnaNodes.lookup "zora's reward" = some (AndSlot [Node.ref "d7 essence"]) ∧
    labrynnaNodes.lookup "d7 essence" = none ∧
    "ages" ∉ ["d7 essence"] ∧
    reachedAfter hard ["d7 essence"] 1 =
      ["d7 essence", "start", "ricky nuun", "dimitri nuun", "moosh nuun", "zora's reward"] ∧
    "zora's reward" ∈ reachedAfter hard ["d7 essence"] (k + 1) ∧
    satisfied hard (fun s => (reachedAfter hard ["d7 essence"] k).contains s)
      (AndSlot [Node.ref "d7 essence"]) = true ∧
    (∀ held : List String, (∀ s ∈ held, labrynnaNodes.lookup s = none) →
      ("zora's reward" ∈ reachedAfter hard held (k + 1) ↔ "d7 essence" ∈ held)) ∧
    (∀ held : List String, (∀ s ∈ held, labrynnaNodes.lookup s = none) → "ages" ∉ held →
      ∀ name ∈ zoraGroup, name ≠ "zora's reward" →
        name ∉ reachedAfter hard held k ∧
        ∀ node, labrynnaNodes.lookup name = some node →
          satisfied hard (fun s => (reachedAfter hard held k).contains s) node = false) := by
  have hheld : ∀ s ∈ ["d7 essence"], labrynnaNodes.lookup s = none := by
    intro s hs
    simp only [List.mem_singleton] at hs
    subst hs
    rfl
  have hd7 : "d7 essence" ∈ reachedAfter hard ["d7 essence"] k :=
    mem_reachedAfter_of_held hard ["d7 essence"] "d7 essence" (by decide) k
  refine ⟨by decide, by decide, rfl, rfl, by decide, ?_,
    (zoras_reward_reached hard ["d7 essence"] hheld k).2 (by decide), ?_, ?_, ?_⟩
  · cases hard <;> decide
  · simpa [satisfied, satisfiedAll, excluded, AndSlot] using hd7
  · intro held hh
    exact zoras_reward_reached hard held hh k
  · intro held hh hages name hname hne
    refine ⟨zora_nodes_unreached hard held hh hages k name hname hne, ?_⟩
    intro node hl
    cases hs : satisfied hard (fun s => (reachedAfter hard held k).contains s) node with
    | false => rfl
    | true =>
      have hin : name ∈ reachedAfter hard held (k + 1) :=
        (mem_propagate hard (reachedAfter hard held k) name).2 (Or.inr ⟨node, hl, hs⟩)
      exact absurd hin (zora_nodes_unreached hard held hh hages (k + 1) name hname hne)

/-- C12: `start` is an AND node with zero terms and is satisfied under every
marking.  Evaluated from the empty held-set, the marks are, from the second pass
on, `start`, `ricky nuun`, `dimitri nuun`, `moosh nuun`, `starting chest` and
`nayru's house`; these marks are a fixpoint of the evaluator and are contained in
every set of marks that is closed under the table, so they are the least fixpoint.
The slots among them are exactly `starting chest` and `nayru's house`.  This holds
under normal and under hard logic. -/
theorem start_sphere_zero (hard : Bool) (k : Nat) :
    labrynnaNodes.lookup "start" = some (And []) ∧
    (∀ reached : String → Bool, satisfied hard reached (And []) = true) ∧
    reachedAfter hard [] (k + 2) =
      ["start", "ricky nuun", "dimitri nuun", "moosh nuun", "starting chest",
       "nayru's house"] ∧
    propagate hard
        ["start", "ricky nuun", "dimitri nuun", "moosh nuun", "starting chest",
         "nayru's house"] =
      ["start", "ricky nuun", "dimitri nuun", "moosh nuun", "starting chest",
       "nayru's house"] ∧
    (∀ closed : List String,
      (∀ name node, labrynnaNodes.lookup name = some node →
        satisfied hard (fun s => closed.contains s) node = true → name ∈ closed) →
      ∀ name ∈ reachedAfter hard [] (k + 2), name ∈ closed) ∧
    (∀ name, (name ∈ reachedAfter hard [] (k + 2) ∧ isSlot name = true) ↔
      (name = "starting chest" ∨ name = "nayru's house")) := by
  have hfix : propagate hard
      ["start", "ricky nuun", "dimitri nuun", "moosh nuun", "starting chest",
       "nayru's house"] =
      ["start", "ricky nuun", "dimitri nuun", "moosh nuun", "starting chest",
       "nayru's house"] := by
    cases hard <;> decide
  have hreach : ∀ j, reachedAfter hard [] (j + 2) =
      ["start", "ricky nuun", "dimitri nuun", "moosh nuun", "starting chest",
       "nayru's house"] := by
    intro j
    induction j with
    | zero => cases hard <;> decide
    | succ j ih =>
      show propagate hard (reachedAfter hard [] (j + 2)) = _
      rw [ih, hfix]
  refine ⟨rfl, ?_, hreach k, hfix, ?_, ?_⟩
  · intro reached
    rfl
  · intro closed hclosed name hname
    have hstart : "start" ∈ closed := hclosed "start" (And []) rfl rfl
    rw [hreach k] at hname
    simp only [List.mem_cons, List.mem_singleton, List.not_mem_nil, or_false] at hname
    rcases hname with rfl | rfl | rfl | rfl | rfl | rfl
    · exact hstart
    · exact hclosed "ricky nuun" (Root []) rfl rfl
    · exact hclosed "dimitri nuun" (Root []) rfl rfl
    · exact hclosed "moosh nuun" (Root [Node.ref "start"]) rfl rfl
    · exact hclosed "starting chest" (AndSlot [Node.ref "start"]) rfl
        (by simp [satisfied, satisfiedAll, excluded, AndSlot, hstart])
    · exact hclosed "nayru's house" (AndSlot [Node.ref "start"]) rfl
        (by simp [satisfied, satisfiedAll, excluded, AndSlot, hstart])
  · intro name
    rw [hreach k]
    constructor
    · rintro ⟨hname, hslot⟩
      simp only [List.mem_cons, List.mem_singleton, List.not_mem_nil, or_false] at hname
      rcases hname with rfl | rfl | rfl | rfl | rfl | rfl
      · exact absurd hslot (by decide)
      · exact absurd hslot (by decide)
      · exact absurd hslot (by decide)
      · exact absurd hslot (by decide)
      · exact Or.inl rfl
      · exact Or.inr rfl
    · rintro (rfl | rfl)
      · exact ⟨by decide, by decide⟩
      · exact ⟨by decide, by decide⟩

end Logic
